import Mathlib

/-!
Verification of the publisher CLI's manifest-resolution and update-eligibility
core (`src/utils/versioning.ts`, `src/commands/update.ts`,
`dist/commands/publish.js`, and the version-lifecycle command file).

The development shallowly embeds the TypeScript/JavaScript functions:
JavaScript's dynamic values are modelled by `JSVal`, the npm `semver`
package's strict grammar and precedence order by `Semver`, and JS `Date`
string parsing by an explicit parameter `dparse : String → Option Int`
(`none` standing for an invalid date / `NaN` timestamp), since `new
Date(string)` is implementation-defined beyond the ISO format.
JS numbers appearing in the data (rollout percentages, sizes, epoch
milliseconds) are modelled as `Int`.
-/

/-- Model of a JavaScript runtime value as it can appear in the semi-trusted
data read from the durable store (JSON documents, relational columns and the
`Date` objects the driver may materialize). `vdate (some iso)` is a valid
`Date` whose `toISOString()` is `iso`; `vdate none` is an `Invalid Date`. -/
inductive JSVal where
  | vstr (s : String)
  | vnum (n : Int)
  | vbool (b : Bool)
  | vnull
  | vundefined
  | vdate (iso : Option String)
  | vobj (fields : List (String × JSVal))
deriving Repr

/-- Property access `v[k]` (also covering optional chaining `v?.[k]`):
objects look up their first binding for the key, every other value —
including `null`/`undefined`, primitives and `Date`s, none of which carry
own enumerable string keys here — yields `undefined`. -/
def jsGet (v : JSVal) (k : String) : JSVal :=
  match v with
  | .vobj fields => (fields.lookup k).getD .vundefined
  | _ => .vundefined

/-- JS truthiness of a value. -/
def jsTruthy (v : JSVal) : Bool :=
  match v with
  | .vstr s => s ≠ ""
  | .vnum n => n ≠ 0
  | .vbool b => b
  | .vnull => false
  | .vundefined => false
  | .vdate _ => true
  | .vobj _ => true

/-- `typeof v === 'object' && v !== null` (objects and `Date`s pass). -/
def jsIsObjectNotNull (v : JSVal) : Bool :=
  match v with
  | .vobj _ => true
  | .vdate _ => true
  | _ => false

/-- The own enumerable string-keyed fields of a value, as a spread
`{...v}` would copy them; non-objects contribute nothing, and a `Date`
has no own enumerable keys. -/
def jsOwnFields (v : JSVal) : List (String × JSVal) :=
  match v with
  | .vobj fields => fields
  | _ => []

/-- JS string-or-undefined `a || b`: the left operand wins unless it is
falsy (`undefined` or the empty string). -/
def jsOrElseStr (a b : Option String) : Option String :=
  match a with
  | some s => if s = "" then b else some s
  | none => b

/-- Insert `x` into `l` before the first element `y` with `le x y`
(stable insertion step). -/
def insertLe (le : α → α → Bool) (x : α) : List α → List α
  | [] => [x]
  | y :: ys => if le x y then x :: y :: ys else y :: insertLe le x ys

/-- A stable sort by the boolean total preorder `le` (insertion sort).
`Array.prototype.sort` is required to be stable, and every stable sort of
a consistent comparator produces the same output, so this models the JS
sorts faithfully; `le a b` stands for "`comparator a b ≤ 0`". -/
def stableSortBy (le : α → α → Bool) : List α → List α
  | [] => []
  | x :: xs => insertLe le x (stableSortBy le xs)

/-! ## The npm `semver` model

Strict grammar: optional surrounding whitespace, optional leading `v`,
`major.minor.patch` with numeric identifiers free of leading zeros, an
optional dash-introduced dot-separated pre-release identifier list
(numeric identifiers without leading zeros, or alphanumeric/hyphen
identifiers), and an optional plus-introduced build-metadata suffix that
is validated but ignored for precedence. -/

/-- A pre-release identifier: numeric or alphanumeric. -/
inductive PreId where
  | pnum (n : Nat)
  | palpha (s : String)
deriving DecidableEq, Repr

/-- A parsed semantic version (build metadata discarded: it never affects
precedence). -/
structure Semver where
  major : Nat
  minor : Nat
  patch : Nat
  pre : List PreId
deriving DecidableEq, Repr

/-- Split a character list on every occurrence of `c` (like
`String.prototype.split` with a single-character separator). -/
def splitOnChar (c : Char) : List Char → List (List Char)
  | [] => [[]]
  | x :: xs =>
    let rest := splitOnChar c xs
    if x = c then [] :: rest
    else
      match rest with
      | h :: t => (x :: h) :: t
      | [] => [[x]]

/-- Split at the first occurrence of `c`: the part before it, and the part
after it when present. -/
def splitFirstChar (c : Char) : List Char → List Char × Option (List Char)
  | [] => ([], none)
  | x :: xs =>
    if x = c then ([], some xs)
    else
      let r := splitFirstChar c xs
      (x :: r.1, r.2)

/-- Characters allowed in pre-release and build identifiers:
`[0-9A-Za-z-]`. -/
def isSemverIdChar (c : Char) : Bool :=
  c.isDigit || c.isAlpha || c = '-'

/-- A strict numeric identifier: nonempty digits, no leading zero. -/
def parseNumericId (cs : List Char) : Option Nat :=
  if cs = [] then none
  else if !cs.all Char.isDigit then none
  else if cs.head? = some '0' && cs ≠ ['0'] then none
  else some (cs.foldl (fun acc c => acc * 10 + (c.toNat - 48)) 0)

/-- One pre-release identifier: all-digit identifiers must be strict
numeric identifiers, anything else must be a nonempty run of identifier
characters. -/
def parsePreId (cs : List Char) : Option PreId :=
  if cs = [] then none
  else if !cs.all isSemverIdChar then none
  else if cs.all Char.isDigit then (parseNumericId cs).map .pnum
  else some (.palpha (String.mk cs))

/-- One build-metadata identifier: nonempty identifier characters. -/
def isBuildId (cs : List Char) : Bool :=
  cs ≠ [] && cs.all isSemverIdChar

/-- Drop surrounding whitespace, as the `SemVer` constructor trims its
input. -/
def trimChars (cs : List Char) : List Char :=
  ((cs.dropWhile Char.isWhitespace).reverse.dropWhile Char.isWhitespace).reverse

/-- `semver.parse` / `semver.valid` (strict mode): `some` exactly on valid
versions, returning the parsed precedence data. -/
def semverParse (s : String) : Option Semver :=
  let cs := trimChars s.data
  let cs := match cs with
    | 'v' :: rest => rest
    | other => other
  let mainAndPre := (splitFirstChar '+' cs).1
  let buildPart := (splitFirstChar '+' cs).2
  let buildOk := match buildPart with
    | none => true
    | some b => (splitOnChar '.' b).all isBuildId
  if !buildOk then none
  else
    let mainPart := (splitFirstChar '-' mainAndPre).1
    let prePart := (splitFirstChar '-' mainAndPre).2
    match splitOnChar '.' mainPart with
    | [ma, mi, pa] =>
      match parseNumericId ma, parseNumericId mi, parseNumericId pa with
      | some major, some minor, some patch =>
        match prePart with
        | none => some ⟨major, minor, patch, []⟩
        | some p =>
          ((splitOnChar '.' p).mapM parsePreId).map (⟨major, minor, patch, ·⟩)
      | _, _, _ => none
    | _ => none

/-- Lexicographic strict-less-than on lists given an element strict order
(ties recurse; a strict prefix is smaller). -/
def lexLtBy (lt : α → α → Bool) : List α → List α → Bool
  | [], [] => false
  | [], _ :: _ => true
  | _ :: _, [] => false
  | a :: as, b :: bs =>
    if lt a b then true
    else if lt b a then false
    else lexLtBy lt as bs

/-- JS `<` on the (ASCII) identifier strings: lexicographic by UTF-16 code
unit; identifier characters are ASCII so code-point order coincides. -/
def strLtB (s t : String) : Bool :=
  lexLtBy (fun c d : Char => decide (c < d)) s.data t.data

/-- `compareIdentifiers`: numeric identifiers sort below alphanumeric
ones; numerics compare numerically, alphanumerics as strings. -/
def preIdLt : PreId → PreId → Bool
  | .pnum m, .pnum n => decide (m < n)
  | .pnum _, .palpha _ => true
  | .palpha _, .pnum _ => false
  | .palpha s, .palpha t => strLtB s t

/-- Pre-release list precedence: having a pre-release sorts below not
having one; two pre-release lists compare lexicographically. -/
def svPreLt : List PreId → List PreId → Bool
  | [], _ => false
  | _ :: _, [] => true
  | a :: as, b :: bs => lexLtBy preIdLt (a :: as) (b :: bs)

/-- One numeric step of the precedence comparison: strictly smaller wins,
strictly larger loses, a tie defers to the continuation `k`. -/
def ltChain (m n : Nat) (k : Bool) : Bool :=
  if m < n then true else if n < m then false else k

/-- Semantic-version precedence strict-less-than (`semver.lt` on parsed
versions): major, then minor, then patch, then the pre-release rule. -/
def Semver.ltB (a b : Semver) : Bool :=
  ltChain a.major b.major (ltChain a.minor b.minor (ltChain a.patch b.patch (svPreLt a.pre b.pre)))

/-- `semver.compare a b` as an integer (`-1`, `0`, `1`). -/
def svCompareI (a b : Semver) : Int :=
  if a.ltB b then -1 else if b.ltB a then 1 else 0

/-- `semver.lt` on version strings, defined (as the call sites guarantee)
only when both parse; on a parse failure it conservatively yields `false`
(the npm function would throw, but every call in the sources is guarded by
a `semver.valid` check). -/
def svLtStr (a b : String) : Bool :=
  match semverParse a, semverParse b with
  | some x, some y => x.ltB y
  | _, _ => false

/-- `semver.prerelease(s)` is non-null: `s` parses and has a nonempty
pre-release list. -/
def semverHasPrerelease (s : String) : Bool :=
  match semverParse s with
  | some v => v.pre ≠ []
  | none => false

/-! ## `src/utils/versioning.ts` -/

/-- `SUPPORTED_OS` -/
def SUPPORTED_OS : List String := ["macos", "windows", "linux", "ios", "android"]

/-- `SUPPORTED_ARCH` -/
def SUPPORTED_ARCH : List String := ["arm64", "x64", "x86"]

/-- `SUPPORTED_BUILD_TYPES` -/
def SUPPORTED_BUILD_TYPES : List String := ["patch", "installer"]

/-- `SUPPORTED_CHANNELS` -/
def SUPPORTED_CHANNELS : List String := ["stable", "beta", "alpha"]

/-- `SUPPORTED_DISTRIBUTIONS` -/
def SUPPORTED_DISTRIBUTIONS : List String := ["direct", "store"]

/-- `isSupportedOs` -/
def isSupportedOs (value : String) : Bool := SUPPORTED_OS.contains value

/-- `isSupportedArch` -/
def isSupportedArch (value : String) : Bool := SUPPORTED_ARCH.contains value

/-- `isSupportedBuildType` -/
def isSupportedBuildType (value : String) : Bool := SUPPORTED_BUILD_TYPES.contains value

/-- `isSupportedDistribution` -/
def isSupportedDistribution (value : String) : Bool := SUPPORTED_DISTRIBUTIONS.contains value

/-- `isSupportedChannel` -/
def isSupportedChannel (value : String) : Bool := SUPPORTED_CHANNELS.contains value

/-- The canonical `UpdatePolicy` structure. Optional fields model the
TypeScript optional (`undefined`-able) properties. -/
structure UpdatePolicy where
  channel : String
  minSupportedVersion : Option String
  rolloutPercentage : Int
  rolloutStartAt : Option String
  rolloutEndAt : Option String
deriving DecidableEq, Repr

/-- The private `clamp` helper. -/
def clamp (value min max : Int) : Int :=
  if value < min then min else if value > max then max else value

/-- The private `normalizeDateLike` helper: a string survives when its
trimmed form is nonempty (the original, untrimmed string is returned); a
valid `Date` becomes its ISO string; everything else normalizes to
`undefined`. -/
def normalizeDateLike (value : JSVal) : Option String :=
  match value with
  | .vstr s => if (s.data.dropWhile Char.isWhitespace) = [] then none else some s
  | .vdate (some iso) => some iso
  | _ => none

/-- The result of `parseVersionMetadata`: the normalized `updatePolicy`
sub-document plus all remaining keys of the defensively parsed input,
untouched. -/
structure VersionMetadata where
  updatePolicy : UpdatePolicy
  rest : List (String × JSVal)
deriving Repr

/-- `parseVersionMetadata`: substitute `{}` for non-object input, read the
nested `updatePolicy` object (again substituting `{}`), and normalize each
policy field (channel membership, semver validity, numeric clamping; the
rollout window strings are kept as arbitrary strings). -/
def parseVersionMetadata (metadata : JSVal) : VersionMetadata :=
  let raw : List (String × JSVal) :=
    if jsIsObjectNotNull metadata then jsOwnFields metadata else []
  let rawUpdatePolicyVal := (raw.lookup "updatePolicy").getD .vundefined
  let up : String → JSVal := fun k =>
    if jsIsObjectNotNull rawUpdatePolicyVal then jsGet rawUpdatePolicyVal k else .vundefined
  let channel := match up "channel" with
    | .vstr s => if isSupportedChannel s then s else "stable"
    | _ => "stable"
  let minSupportedVersion := match up "minSupportedVersion" with
    | .vstr s => if (semverParse s).isSome then some s else none
    | _ => none
  let rolloutPercentage := match up "rolloutPercentage" with
    | .vnum n => clamp n 0 100
    | _ => 100
  let rolloutStartAt := match up "rolloutStartAt" with
    | .vstr s => some s
    | _ => none
  let rolloutEndAt := match up "rolloutEndAt" with
    | .vstr s => some s
    | _ => none
  { updatePolicy :=
      { channel := channel
        minSupportedVersion := minSupportedVersion
        rolloutPercentage := rolloutPercentage
        rolloutStartAt := rolloutStartAt
        rolloutEndAt := rolloutEndAt }
    rest := raw.filter (fun kv => kv.1 ≠ "updatePolicy") }

/-- The relevant relational columns of a version row, each an untyped
store value (`VersionPolicySource`). -/
structure VersionPolicySource where
  metadata : JSVal
  release_channel : JSVal
  min_supported_version : JSVal
  rollout_percentage : JSVal
  rollout_start_at : JSVal
  rollout_end_at : JSVal
deriving Repr

/-- `getUpdatePolicyFromVersion`: field-by-field merge of the relational
columns over the metadata policy. -/
def getUpdatePolicyFromVersion (source : VersionPolicySource) : UpdatePolicy :=
  let metadataPolicy := (parseVersionMetadata source.metadata).updatePolicy
  let channel := match source.release_channel with
    | .vstr s => if isSupportedChannel s then s else metadataPolicy.channel
    | _ => metadataPolicy.channel
  let minSupportedVersion := match source.min_supported_version with
    | .vstr s => if (semverParse s).isSome then some s else metadataPolicy.minSupportedVersion
    | _ => metadataPolicy.minSupportedVersion
  let rolloutPercentage := match source.rollout_percentage with
    | .vnum n => clamp n 0 100
    | _ => metadataPolicy.rolloutPercentage
  { channel := channel
    minSupportedVersion := minSupportedVersion
    rolloutPercentage := rolloutPercentage
    rolloutStartAt := jsOrElseStr (normalizeDateLike source.rollout_start_at) metadataPolicy.rolloutStartAt
    rolloutEndAt := jsOrElseStr (normalizeDateLike source.rollout_end_at) metadataPolicy.rolloutEndAt }

/-- `buildVersionMetadataWithPolicy`: defensively parse the existing
metadata and replace only its `updatePolicy`. -/
def buildVersionMetadataWithPolicy (existingMetadata : JSVal) (policy : UpdatePolicy) : VersionMetadata :=
  let metadata := parseVersionMetadata existingMetadata
  { metadata with updatePolicy := policy }

/-- Re-serialization of an `UpdatePolicy` as the JS object assigned into
`metadata.updatePolicy` (optional fields present with value `undefined`,
indistinguishable from absent ones for every read in the sources). -/
def policyToJSVal (p : UpdatePolicy) : JSVal :=
  let opt : Option String → JSVal := fun o =>
    match o with
    | some s => .vstr s
    | none => .vundefined
  .vobj [("channel", .vstr p.channel),
         ("minSupportedVersion", opt p.minSupportedVersion),
         ("rolloutPercentage", .vnum p.rolloutPercentage),
         ("rolloutStartAt", opt p.rolloutStartAt),
         ("rolloutEndAt", opt p.rolloutEndAt)]

/-- A `VersionMetadata` written back to the store as a JSON document. -/
def metadataToJSVal (m : VersionMetadata) : JSVal :=
  .vobj (m.rest ++ [("updatePolicy", policyToJSVal m.updatePolicy)])

/-- `isVersionGreater`: strict semantic greater-than, `false` whenever
either side is invalid. -/
def isVersionGreater (candidate current : String) : Bool :=
  match semverParse candidate, semverParse current with
  | some cand, some cur => cur.ltB cand
  | _, _ => false

/-- The comparator of `sortVersionsDesc`: `semver.rcompare` between two
valid versions, valid versions before invalid ones, invalid ones tie. -/
def versionsDescCmp (versionA versionB : String) : Int :=
  match semverParse versionA, semverParse versionB with
  | some validA, some validB => svCompareI validB validA
  | some _, none => -1
  | none, some _ => 1
  | none, none => 0

/-- `sortVersionsDesc`: a stable sort (JS `Array.prototype.sort`) of the
items by the descending-semver comparator on their picked version
strings. -/
def sortVersionsDesc (items : List α) (pickVersion : α → String) : List α :=
  stableSortBy (fun a b => decide (versionsDescCmp (pickVersion a) (pickVersion b) ≤ 0)) items

/-- `isWithinRolloutWindow` at time `at_` (epoch milliseconds), given the
JS date-string parser `dparse`: a truthy bound whose parse is a valid date
excludes times strictly outside it; unparseable or falsy bounds are
open. -/
def isWithinRolloutWindow (dparse : String → Option Int) (policy : UpdatePolicy) (at_ : Int) : Bool :=
  let startOk := match policy.rolloutStartAt with
    | some s =>
      if s = "" then true
      else match dparse s with
        | some start => decide (start ≤ at_)
        | none => true
    | none => true
  let endOk := match policy.rolloutEndAt with
    | some s =>
      if s = "" then true
      else match dparse s with
        | some endT => decide (at_ ≤ endT)
        | none => true
    | none => true
  startOk && endOk

/-- `charCodeAt(0)` of a code point iterated by `Array.from`: itself when
in the basic plane, else the leading surrogate. -/
def jsCharCodeUnit0 (c : Char) : Nat :=
  if c.toNat < 65536 then c.toNat else 55296 + (c.toNat - 65536) / 1024

/-- The rolling device-bucket hash. -/
def deviceIdHash (s : String) : Nat :=
  s.data.foldl (fun acc c => (acc * 31 + jsCharCodeUnit0 c) % 1000) 0

/-- `isDeviceInRolloutBucket`. -/
def isDeviceInRolloutBucket (deviceId : Option String) (rolloutPercentage : Int) : Bool :=
  if 100 ≤ rolloutPercentage then true
  else if rolloutPercentage ≤ 0 then false
  else match deviceId with
    | none => false
    | some s =>
      if s = "" then false
      else decide ((deviceIdHash s % 100 : Int) < rolloutPercentage)

/-! ## `src/commands/update.ts` — the Update Evaluator

The stateful shell (store queries, console output) is stripped; the model
starts from the fetched channel rows `versionsWithPlatforms` — the
version rows of the requested channel with `is_published = true`,
each carrying its mapped build payloads. -/

/-- One build payload as mapped from a `builds` row (the camelCase object
produced both by `checkForUpdate` and by `mapBuildRowToPlatformPayload`). -/
structure PlatformBuild where
  os : String
  arch : String
  type : String
  distribution : JSVal
  packageName : JSVal
  url : String
  size : JSVal
  platformMetadata : JSVal
  createdAt : Option String
  sha256Checksum : JSVal
  sha512Checksum : JSVal
deriving Repr

/-- A fetched version row together with its build payloads (the
`versionsWithPlatforms` element). -/
structure VersionRow where
  version_name : String
  is_mandatory : Bool
  release_channel : JSVal
  metadata : JSVal
  min_supported_version : JSVal
  rollout_percentage : JSVal
  rollout_start_at : JSVal
  rollout_end_at : JSVal
  platforms : List PlatformBuild
deriving Repr

/-- The policy-relevant columns of a version row. -/
def VersionRow.toPolicySource (v : VersionRow) : VersionPolicySource :=
  { metadata := v.metadata
    release_channel := v.release_channel
    min_supported_version := v.min_supported_version
    rollout_percentage := v.rollout_percentage
    rollout_start_at := v.rollout_start_at
    rollout_end_at := v.rollout_end_at }

/-- The Update Evaluator's private `resolveDistribution` copy: an explicit
`'store'`/`'direct'` column wins, anything else is inferred from
`platformMetadata?.external`. -/
def resolveDistributionUpdate (build : PlatformBuild) : String :=
  match build.distribution with
  | .vstr s =>
    if s = "store" || s = "direct" then s
    else if jsTruthy (jsGet build.platformMetadata "external") then "store" else "direct"
  | _ => if jsTruthy (jsGet build.platformMetadata "external") then "store" else "direct"

/-- `rankBuildType`: `patch` before `installer`. -/
def rankBuildType (type : String) : Int :=
  if type = "patch" then 0 else 1

/-- `rankDistribution`: `store` before `direct`. -/
def rankDistribution (distribution : String) : Int :=
  if distribution = "store" then 0 else 1

/-- `new Date(v || 0).getTime()`: a falsy value is epoch zero; otherwise
the string goes through the JS date parser, `none` being `NaN`. -/
def jsTimeOrZero (dparse : String → Option Int) (v : Option String) : Option Int :=
  match v with
  | none => some 0
  | some s => if s = "" then some 0 else dparse s

/-- Whether `bTs - aTs ≤ 0` for the recency tie-break. When a timestamp is
`NaN` the subtraction is `NaN`, which the sort treats as 0, keeping the
relative order — hence `true`. -/
def tsLePair (dparse : String → Option Int) (a b : Option String) : Bool :=
  match jsTimeOrZero dparse a, jsTimeOrZero dparse b with
  | some aTs, some bTs => decide (bTs ≤ aTs)
  | _, _ => true

/-- The comparator of `selectPreferredBuild` in "`cmp a b ≤ 0`" form:
type rank, then distribution rank, then recency. -/
def preferredBuildLe (dparse : String → Option Int) (a b : PlatformBuild) : Bool :=
  if rankBuildType a.type < rankBuildType b.type then true
  else if rankBuildType b.type < rankBuildType a.type then false
  else if rankDistribution (resolveDistributionUpdate a) < rankDistribution (resolveDistributionUpdate b) then true
  else if rankDistribution (resolveDistributionUpdate b) < rankDistribution (resolveDistributionUpdate a) then false
  else tsLePair dparse a.createdAt b.createdAt

/-- `selectPreferredBuild`: among the builds matching `(os, arch)` with a
patch/installer type, the top of the stable sort, its distribution
resolved; `none` when no candidate exists. -/
def selectPreferredBuild (dparse : String → Option Int) (builds : List PlatformBuild) (os arch : String) :
    Option (PlatformBuild × String) :=
  let candidates := builds.filter (fun build =>
    build.os == os && build.arch == arch && (build.type == "patch" || build.type == "installer"))
  match stableSortBy (preferredBuildLe dparse) candidates with
  | [] => none
  | top :: _ => some (top, resolveDistributionUpdate top)

/-- The five rejection gates of `checkForUpdate`, evaluated on one
candidate version. -/
def evaluatorGates (dparse : String → Option Int) (installedVersion os arch : String)
    (deviceId : Option String) (allowPrerelease : Bool) (now : Int) (version : VersionRow) : Bool :=
  isVersionGreater version.version_name installedVersion &&
  (allowPrerelease || !semverHasPrerelease version.version_name) &&
  (let policy := getUpdatePolicyFromVersion version.toPolicySource
   isWithinRolloutWindow dparse policy now &&
   isDeviceInRolloutBucket deviceId policy.rolloutPercentage &&
   version.platforms.any (fun build =>
     build.os == os && build.arch == arch && (build.type == "installer" || build.type == "patch")))

/-- The eligible-version scan of `checkForUpdate`: sort the channel's
published versions by descending semantic version and take the first one
passing every gate. -/
def checkForUpdateEligible (dparse : String → Option Int) (installedVersion os arch : String)
    (deviceId : Option String) (allowPrerelease : Bool) (now : Int)
    (versions : List VersionRow) : Option VersionRow :=
  (sortVersionsDesc versions (fun v => v.version_name)).find?
    (evaluatorGates dparse installedVersion os arch deviceId allowPrerelease now)

/-- The `mandatory` flag reported for an eligible version. -/
def computeMandatory (installedVersion : String) (eligible : VersionRow) : Bool :=
  let policy := getUpdatePolicyFromVersion eligible.toPolicySource
  let isMinSupportedBlocked := match policy.minSupportedVersion with
    | some m => m ≠ "" && (semverParse m).isSome && svLtStr installedVersion m
    | none => false
  eligible.is_mandatory || isMinSupportedBlocked

/-! ## `dist/commands/publish.js` — the Manifest Builder -/

/-- A build entering `buildPlatformsArray`: a mapped build payload, plus
the `sourceVersion` stamped on it by the channel-latest selection (absent
for a per-version manifest). -/
structure ManifestBuild extends PlatformBuild where
  sourceVersion : Option String
deriving Repr

/-- The Manifest Builder's private `resolveDistribution` copy. -/
def resolveDistributionPublish (build : PlatformBuild) : String :=
  match build.distribution with
  | .vstr s =>
    if s = "store" || s = "direct" then s
    else if jsTruthy (jsGet build.platformMetadata "external") then "store" else "direct"
  | _ => if jsTruthy (jsGet build.platformMetadata "external") then "store" else "direct"

/-- One `source` object pushed into a type entry by `buildPlatformsArray`.
`version`, `fallbackFrom` and `external` are present only when the
corresponding guard value is truthy. -/
structure ManifestSource where
  url : String
  size : JSVal
  packageName : JSVal
  releaseDate : Option String
  type : String
  distribution : String
  version : Option String
  sha256 : JSVal
  sha512 : JSVal
  fallbackFrom : Option JSVal
  external : Option JSVal
deriving Repr

/-- Build the `source` object for one build. -/
def mkManifestSource (b : ManifestBuild) : ManifestSource :=
  { url := b.url
    size := b.size
    packageName := b.packageName
    releaseDate := b.createdAt
    type := b.type
    distribution := resolveDistributionPublish b.toPlatformBuild
    version := match b.sourceVersion with
      | some s => if s = "" then none else some s
      | none => none
    sha256 := b.sha256Checksum
    sha512 := b.sha512Checksum
    fallbackFrom :=
      let v := jsGet b.platformMetadata "fallback_from"
      if jsTruthy v then some v else none
    external :=
      let v := jsGet b.platformMetadata "external"
      if jsTruthy v then some v else none }

/-- Insertion-ordered association update: modify the value at `k` in
place, or append a new binding seeded with `dflt` (JS `Map`/object key
order). -/
def updateAssocAppend (k : String) (f : α → α) (dflt : α) : List (String × α) → List (String × α)
  | [] => [(k, f dflt)]
  | (k', v) :: rest =>
    if k' = k then (k', f v) :: rest else (k', v) :: updateAssocAppend k f dflt rest

/-- The nested `platformMap` after the push phase: os → arch → type →
sources in push order. -/
abbrev GroupedSources := List (String × List (String × List (String × List ManifestSource)))

/-- Push one build's source object into the nested map. -/
def pushSource (g : GroupedSources) (os arch type : String) (s : ManifestSource) : GroupedSources :=
  updateAssocAppend os
    (updateAssocAppend arch
      (updateAssocAppend type (fun srcs => srcs ++ [s]) [])
      [])
    [] g

/-- The comparator of the per-slot source sort in "`cmp a b ≤ 0`" form:
distribution rank, then recency. -/
def manifestSourceLe (dparse : String → Option Int) (a b : ManifestSource) : Bool :=
  if rankDistribution a.distribution < rankDistribution b.distribution then true
  else if rankDistribution b.distribution < rankDistribution a.distribution then false
  else tsLePair dparse a.releaseDate b.releaseDate

/-- The resolved slot that replaces a type entry: the primary's fields,
plus the full sorted source list when more than one candidate exists. -/
structure ManifestSlot where
  primary : ManifestSource
  sources : Option (List ManifestSource)
deriving Repr

/-- Turn a type entry's pushed sources into its resolved slot (the entry
is never empty, since entries are created by a push). -/
def finishSlot (dparse : String → Option Int) (srcs : List ManifestSource) : Option ManifestSlot :=
  match stableSortBy (manifestSourceLe dparse) srcs with
  | [] => none
  | primary :: rest =>
    some { primary := primary
           sources := if rest.isEmpty then none else some (primary :: rest) }

/-- `buildPlatformsArray`: group every build's source object under
`(os, arch, type)`, then resolve each type entry to a primary (and, when
contested, the sorted source list). -/
def buildPlatformsArray (dparse : String → Option Int) (builds : List ManifestBuild) :
    List (String × List (String × List (String × ManifestSlot))) :=
  let grouped := builds.foldl
    (fun g b => pushSource g b.os b.arch b.type (mkManifestSource b)) []
  grouped.map (fun osE =>
    (osE.1, osE.2.map (fun archE =>
      (archE.1, archE.2.filterMap (fun typeE =>
        (finishSlot dparse typeE.2).map (fun slot => (typeE.1, slot)))))))

/-- The combo key `${os}::${arch}::${type}::${distribution}` of the
channel-latest selection. -/
def comboKeyOf (b : PlatformBuild) : String :=
  b.os ++ "::" ++ b.arch ++ "::" ++ b.type ++ "::" ++ resolveDistributionPublish b

/-- One step of the channel-latest selection: record the build under its
combo key unless the key is already filled. -/
def latestSelectionStep (acc : List (String × ManifestBuild)) (versionName : String)
    (b : PlatformBuild) : List (String × ManifestBuild) :=
  let distribution := resolveDistributionPublish b
  let comboKey := b.os ++ "::" ++ b.arch ++ "::" ++ b.type ++ "::" ++ distribution
  if (acc.lookup comboKey).isSome then acc
  else acc ++ [(comboKey,
    { toPlatformBuild := { b with distribution := .vstr distribution }
      sourceVersion := some versionName })]

/-- The `selectedBuildBySource` map of `generateLatestManifest`: walk the
published versions in descending semantic-version order and fill each
`(os, arch, type, distribution)` key from the first version that has a
build for it. -/
def selectLatestBuilds (versions : List VersionRow) : List (String × ManifestBuild) :=
  (sortVersionsDesc versions (fun v => v.version_name)).foldl
    (fun acc v => v.platforms.foldl
      (fun acc2 b => latestSelectionStep acc2 v.version_name b) acc) []

/-- The record the channel-latest selection inserts for a build `b` found
on a version: the build with its distribution resolved, stamped with the
source version's name. -/
def selectedBuildOf (versionName : String) (b : PlatformBuild) : ManifestBuild :=
  { toPlatformBuild := { b with distribution := .vstr (resolveDistributionPublish b) }
    sourceVersion := some versionName }

/-- Look up the pushed source list of an `(os, arch, type)` entry in the
nested grouping. -/
def groupedLookup (g : GroupedSources) (os arch type : String) : Option (List ManifestSource) :=
  ((g.lookup os).bind (fun archMap => archMap.lookup arch)).bind
    (fun typeMap => typeMap.lookup type)

/-- Look up the resolved slot of an `(os, arch, type)` entry in a built
platforms structure. -/
def slotLookup (platforms : List (String × List (String × List (String × ManifestSlot))))
    (os arch type : String) : Option ManifestSlot :=
  ((platforms.lookup os).bind (fun archMap => archMap.lookup arch)).bind
    (fun typeMap => typeMap.lookup type)

/-! ## Version deletion (`deleteVersion` in the version-lifecycle file) -/

/-- A relational `versions` row as the deletion flow reads it. -/
structure DbVersionRow where
  id : Nat
  version_name : String
  release_channel : String
  is_published : Bool
deriving Repr, DecidableEq

/-- A relational `builds` row as the deletion flow reads it. -/
structure DbBuildRow where
  version_id : Nat
  os : String
  arch : String
  type : String
  distribution : JSVal
  platform_metadata : JSVal
deriving Repr

/-- The relational store state visible to `deleteVersion`. -/
structure DbState where
  versions : List DbVersionRow
  builds : List DbBuildRow
deriving Repr

/-- The store's `platform_metadata->>fallback_from = version` filter
(text extraction of the nested key, equality with the version name). -/
def fallbackFromMatches (b : DbBuildRow) (version : String) : Bool :=
  match jsGet b.platform_metadata "fallback_from" with
  | .vstr s => s = version
  | _ => false

/-- The observable outcome of a `deleteVersion` invocation. -/
inductive DeleteOutcome where
  | notFound
  | conflictBlocked (conflicts : List DbBuildRow)
  | publishedBlocked
  | canceled
  | deleted (conflicts : List DbBuildRow) (buildsDeleted : Nat)
deriving Repr

/-- `deleteVersion version channel force yes` over the relational store:
resolve the row, collect the dependent fallback references, block on
conflict or published state unless forced, honor the confirmation, then
delete the builds and the version row (blob cleanup and manifest
regeneration are non-fatal follow-ups outside the relational state). -/
def deleteVersionModel (db : DbState) (version channel : String) (force yes : Bool) :
    DeleteOutcome × DbState :=
  match db.versions.find? (fun v => v.version_name == version && v.release_channel == channel) with
  | none => (.notFound, db)
  | some versionData =>
    let builds := db.builds.filter (fun b => b.version_id == versionData.id)
    let dependentBuilds := db.builds.filter (fun b => fallbackFromMatches b version)
    if !dependentBuilds.isEmpty && !force then (.conflictBlocked dependentBuilds, db)
    else if versionData.is_published && !force then (.publishedBlocked, db)
    else if !yes then (.canceled, db)
    else
      (.deleted dependentBuilds builds.length,
       { versions := db.versions.filter (fun v => v.id ≠ versionData.id)
         builds := db.builds.filter (fun b => b.version_id ≠ versionData.id) })

/-! ## Claim-side validity extractors

These formalize the spec's per-field validity wording for the policy
merge ("channel among the three recognized channels", "a valid semantic
version", "numeric, clamped to [0,100]", "a value normalizing to a
non-empty string"): `some` exactly when the value is usable for the
field, carrying the value the merge would use. -/

/-- A value usable as a channel: a string naming a recognized channel. -/
def relChannelValid (v : JSVal) : Option String :=
  match v with
  | .vstr s => if isSupportedChannel s then some s else none
  | _ => none

/-- A value usable as a minimum supported version: a string parsing as a
valid semantic version. -/
def relSemverValid (v : JSVal) : Option String :=
  match v with
  | .vstr s => if (semverParse s).isSome then some s else none
  | _ => none

/-- A value usable as a rollout percentage: a number, clamped to
[0, 100]. -/
def relNumericClamped (v : JSVal) : Option Int :=
  match v with
  | .vnum n => some (clamp n 0 100)
  | _ => none

/-- A value usable as a rollout bound: one normalizing to a non-empty
string. -/
def relDateNormalized (v : JSVal) : Option String :=
  match normalizeDateLike v with
  | some s => if s = "" then none else some s
  | none => none

/-- A string-valued field, untouched. -/
def strFieldValue (v : JSVal) : Option String :=
  match v with
  | .vstr s => some s
  | _ => none

/-- The raw value at key `k` of the `updatePolicy` sub-document nested in
a metadata document. -/
def metadataPolicyField (metadata : JSVal) (k : String) : JSVal :=
  jsGet (jsGet metadata "updatePolicy") k

/-! ## Concrete fixtures

Small concrete stores and rows used to instantiate the theorems (the
spec's own worked examples). `demoDParse` is a date parser under which
every string is an invalid date; the fixture policies leave the rollout
window unset, so no date parsing is exercised. -/

/-- A date parser mapping every string to an invalid date. -/
def demoDParse : String → Option Int := fun _ => none

/-- A macOS arm64 installer build payload. -/
def demoBuildMac : PlatformBuild :=
  { os := "macos"
    arch := "arm64"
    type := "installer"
    distribution := .vstr "direct"
    packageName := .vstr "app.dmg"
    url := "https://cdn.example/releases/stable/1.1.0/app.dmg"
    size := .vnum 1024
    platformMetadata := .vnull
    createdAt := some "2024-01-02T00:00:00Z"
    sha256Checksum := .vstr "c3"
    sha512Checksum := .vnull }

/-- A published version row with no builds, used for "1.2.0" and
"0.9.0". -/
def demoRowNoBuilds (name : String) : VersionRow :=
  { version_name := name
    is_mandatory := false
    release_channel := .vstr "stable"
    metadata := .vnull
    min_supported_version := .vnull
    rollout_percentage := .vnum 100
    rollout_start_at := .vnull
    rollout_end_at := .vnull
    platforms := [] }

/-- The "1.1.0" row carrying the only compatible build. -/
def demoV110 : VersionRow :=
  { demoRowNoBuilds "1.1.0" with platforms := [demoBuildMac] }

/-- The spec's eligibility fixture: versions 1.2.0 / 1.1.0 / 0.9.0, all
published in-window at 100% rollout, with a (macos, arm64) build only on
1.1.0; listed out of semantic order to exercise the sort. -/
def demoVersions : List VersionRow :=
  [demoRowNoBuilds "0.9.0", demoRowNoBuilds "1.2.0", demoV110]

/-- A store-distribution manifest build for one slot. -/
def demoStoreBuild : ManifestBuild :=
  { os := "ios"
    arch := "arm64"
    type := "installer"
    distribution := .vstr "store"
    packageName := .vstr "app-store"
    url := "https://apps.example/listing"
    size := .vnum 1
    platformMetadata := .vobj [("external", .vbool true)]
    createdAt := some "2024-01-01T00:00:00Z"
    sha256Checksum := .vnull
    sha512Checksum := .vnull
    sourceVersion := none }

/-- A direct-distribution manifest build for the same slot, with a newer
timestamp than the store build. -/
def demoDirectBuild : ManifestBuild :=
  { os := "ios"
    arch := "arm64"
    type := "installer"
    distribution := .vstr "direct"
    packageName := .vstr "app.ipa"
    url := "https://cdn.example/releases/stable/1.0.0/app.ipa"
    size := .vnum 2
    platformMetadata := .vnull
    createdAt := some "2024-02-01T00:00:00Z"
    sha256Checksum := .vstr "a1"
    sha512Checksum := .vnull
    sourceVersion := none }

/-- A total date parser for the manifest fixtures: the two fixture
timestamps parse to distinct instants, all other strings to epoch zero. -/
def demoManifestDParse : String → Option Int := fun s =>
  if s = "2024-01-01T00:00:00Z" then some 100
  else if s = "2024-02-01T00:00:00Z" then some 200
  else some 0

/-- A deletion fixture: version 1.0.0 (id 1) is referenced as
`fallback_from` by a build of version 1.1.0 (id 2). -/
def demoDeleteDb : DbState :=
  { versions :=
      [ { id := 1, version_name := "1.0.0", release_channel := "stable", is_published := false }
      , { id := 2, version_name := "1.1.0", release_channel := "stable", is_published := true } ]
    builds :=
      [ { version_id := 2
          os := "macos"
          arch := "arm64"
          type := "installer"
          distribution := .vstr "direct"
          platform_metadata := .vobj [("fallback_from", .vstr "1.0.0")] } ] }

/-- The mandatory-override fixture: `is_mandatory = false` but
`min_supported_version = "1.0.0"`. -/
def demoMinRow : VersionRow :=
  { demoRowNoBuilds "1.1.0" with min_supported_version := .vstr "1.0.0" }

/-- A metadata document with extra keys alongside a stale policy. -/
def demoMetadata : JSVal :=
  .vobj [("releaseTrain", .vstr "spring"),
         ("updatePolicy", .vobj [("channel", .vstr "beta")]),
         ("qa", .vbool true)]

/-- A plain canonical policy value. -/
def demoPolicy : UpdatePolicy :=
  { channel := "stable"
    minSupportedVersion := none
    rolloutPercentage := 100
    rolloutStartAt := none
    rolloutEndAt := none }

/-- A version row mixing relational policy columns with nested metadata
policy values. -/
def demoPolicySource : VersionPolicySource :=
  { metadata := .vobj [("updatePolicy",
      .vobj [("channel", .vstr "beta"),
             ("minSupportedVersion", .vstr "1.0.0"),
             ("rolloutPercentage", .vnum 150),
             ("rolloutStartAt", .vstr "2024-01-01")])]
    release_channel := .vstr "alpha"
    min_supported_version := .vstr "not-a-version"
    rollout_percentage := .vnull
    rollout_start_at := .vstr "   "
    rollout_end_at := .vdate (some "2024-03-01T00:00:00.000Z") }

/-! ## Order and sorting lemmas -/

theorem insertLe_perm (le : α → α → Bool) (x : α) :
    ∀ l : List α, (insertLe le x l).Perm (x :: l) := by
  intro l
  induction l with
  | nil => simp [insertLe]
  | cons y ys ih =>
    simp only [insertLe]
    split
    · exact List.Perm.refl _
    · exact (ih.cons y).trans (List.Perm.swap x y ys)

theorem stableSortBy_perm (le : α → α → Bool) :
    ∀ l : List α, (stableSortBy le l).Perm l := by
  intro l
  induction l with
  | nil => simp [stableSortBy]
  | cons x xs ih => exact (insertLe_perm le x (stableSortBy le xs)).trans (ih.cons x)

theorem pairwise_insertLe {le : α → α → Bool}
    (Htr : ∀ a b c, le a b = true → le b c = true → le a c = true)
    (Htot : ∀ a b, (le a b || le b a) = true) (x : α) :
    ∀ {l : List α}, l.Pairwise (fun a b => le a b = true) →
      (insertLe le x l).Pairwise (fun a b => le a b = true) := by
  intro l h
  induction l with
  | nil => simp [insertLe]
  | cons y ys ih =>
    rcases List.pairwise_cons.mp h with ⟨hy, hys⟩
    simp only [insertLe]
    split
    · rename_i hxy
      refine List.pairwise_cons.mpr ⟨?_, h⟩
      intro b hb
      rcases List.mem_cons.mp hb with rfl | hb
      · exact hxy
      · exact Htr x y b hxy (hy b hb)
    · rename_i hxy
      have hyx : le y x = true := by
        have htot := Htot x y
        simp only [Bool.not_eq_true] at hxy
        simpa [hxy] using htot
      refine List.pairwise_cons.mpr ⟨?_, ih hys⟩
      intro b hb
      have hb2 := (insertLe_perm le x ys).mem_iff.mp hb
      rcases List.mem_cons.mp hb2 with rfl | hb3
      · exact hyx
      · exact hy b hb3

theorem pairwise_stableSortBy {le : α → α → Bool}
    (Htr : ∀ a b c, le a b = true → le b c = true → le a c = true)
    (Htot : ∀ a b, (le a b || le b a) = true) :
    ∀ l : List α, (stableSortBy le l).Pairwise (fun a b => le a b = true) := by
  intro l
  induction l with
  | nil => simp [stableSortBy]
  | cons x xs ih => exact pairwise_insertLe Htr Htot x ih

theorem find?_decomp {p : α → Bool} :
    ∀ {l : List α} {v : α}, l.find? p = some v →
      ∃ l₁ l₂, l = l₁ ++ v :: l₂ ∧ ∀ a ∈ l₁, p a = false := by
  intro l
  induction l with
  | nil => intro v h; simp [List.find?] at h
  | cons x xs ih =>
    intro v h
    by_cases hx : p x = true
    · rw [List.find?_cons_of_pos _ hx] at h
      obtain rfl : x = v := by injection h
      exact ⟨[], xs, rfl, by simp⟩
    · rw [List.find?_cons_of_neg _ (by simpa using hx)] at h
      obtain ⟨l₁, l₂, rfl, hall⟩ := ih h
      refine ⟨x :: l₁, l₂, rfl, ?_⟩
      intro a ha
      rcases List.mem_cons.mp ha with rfl | ha
      · simpa using hx
      · exact hall a ha

theorem lexLtBy_trans {lt : α → α → Bool}
    (Htr : ∀ a b c, lt a b = true → lt b c = true → lt a c = true)
    (Heq : ∀ a b, lt a b = false → lt b a = false → a = b) :
    ∀ x y z, lexLtBy lt x y = true → lexLtBy lt y z = true → lexLtBy lt x z = true := by
  intro x
  induction x with
  | nil =>
    intro y z hxy hyz
    cases y with
    | nil => simp [lexLtBy] at hxy
    | cons b bs =>
      cases z with
      | nil => simp [lexLtBy] at hyz
      | cons c cs => simp [lexLtBy]
  | cons a as ih =>
    intro y z hxy hyz
    cases y with
    | nil => simp [lexLtBy] at hxy
    | cons b bs =>
      cases z with
      | nil => simp [lexLtBy] at hyz
      | cons c cs =>
        simp only [lexLtBy] at hxy hyz ⊢
        by_cases hab : lt a b = true
        · by_cases hbc : lt b c = true
          · simp [Htr a b c hab hbc]
          · by_cases hcb : lt c b = true
            · simp [hbc, hcb] at hyz
            · have hbceq : b = c :=
                Heq b c (by simpa using hbc) (by simpa using hcb)
              subst hbceq
              simp [hab]
        · by_cases hba : lt b a = true
          · simp [hab, hba] at hxy
          · have habeq : a = b :=
              Heq a b (by simpa using hab) (by simpa using hba)
            subst habeq
            rw [if_neg hab, if_neg hab] at hxy
            by_cases hac : lt a c = true
            · simp [hac]
            · by_cases hca : lt c a = true
              · simp [hac, hca] at hyz
              · have haceq : a = c :=
                  Heq a c (by simpa using hac) (by simpa using hca)
                subst haceq
                rw [if_neg hac, if_neg hac] at hyz ⊢
                exact ih bs cs hxy hyz

theorem lexLtBy_eq_of_not {lt : α → α → Bool}
    (Heq : ∀ a b, lt a b = false → lt b a = false → a = b) :
    ∀ x y, lexLtBy lt x y = false → lexLtBy lt y x = false → x = y := by
  intro x
  induction x with
  | nil =>
    intro y hxy _
    cases y with
    | nil => rfl
    | cons b bs => simp [lexLtBy] at hxy
  | cons a as ih =>
    intro y hxy hyx
    cases y with
    | nil => simp [lexLtBy] at hyx
    | cons b bs =>
      simp only [lexLtBy] at hxy hyx
      by_cases hab : lt a b = true
      · simp [hab] at hxy
      · by_cases hba : lt b a = true
        · simp [hba] at hyx
        · have habeq : a = b := Heq a b (by simpa using hab) (by simpa using hba)
          subst habeq
          rw [if_neg hab, if_neg hab] at hxy
          rw [if_neg hab, if_neg hab] at hyx
          rw [ih bs hxy hyx]

theorem lexLtBy_irrefl {lt : α → α → Bool} (Hirr : ∀ a, lt a a = false) :
    ∀ x, lexLtBy lt x x = false := by
  intro x
  induction x with
  | nil => rfl
  | cons a as ih => simp [lexLtBy, Hirr a, ih]

theorem strLtB_trans {s t u : String} (h1 : strLtB s t = true) (h2 : strLtB t u = true) :
    strLtB s u = true := by
  unfold strLtB at *
  refine lexLtBy_trans ?_ ?_ s.data t.data u.data h1 h2
  · intro a b c hab hbc
    simp only [decide_eq_true_eq] at *
    exact lt_trans hab hbc
  · intro a b hab hba
    simp only [decide_eq_false_iff_not] at hab hba
    exact le_antisymm (le_of_not_lt hba) (le_of_not_lt hab)

theorem strLtB_eq_of_not {s t : String} (h1 : strLtB s t = false) (h2 : strLtB t s = false) :
    s = t := by
  unfold strLtB at *
  have hdata : s.data = t.data := by
    refine lexLtBy_eq_of_not ?_ s.data t.data h1 h2
    intro a b hab hba
    simp only [decide_eq_false_iff_not] at hab hba
    exact le_antisymm (le_of_not_lt hba) (le_of_not_lt hab)
  cases s
  cases t
  exact congrArg String.mk hdata

theorem strLtB_irrefl (s : String) : strLtB s s = false := by
  unfold strLtB
  exact lexLtBy_irrefl (fun a => by simp) s.data

theorem preIdLt_trans {a b c : PreId} (h1 : preIdLt a b = true) (h2 : preIdLt b c = true) :
    preIdLt a c = true := by
  cases a <;> cases b <;> cases c <;> simp_all [preIdLt]
  · omega
  · exact strLtB_trans h1 h2

theorem preIdLt_eq_of_not {a b : PreId} (h1 : preIdLt a b = false) (h2 : preIdLt b a = false) :
    a = b := by
  cases a <;> cases b <;> simp_all [preIdLt]
  · omega
  · exact strLtB_eq_of_not h1 h2

theorem preIdLt_irrefl (a : PreId) : preIdLt a a = false := by
  cases a <;> simp [preIdLt, strLtB_irrefl]

theorem svPreLt_trans {x y z : List PreId} (h1 : svPreLt x y = true) (h2 : svPreLt y z = true) :
    svPreLt x z = true := by
  cases x with
  | nil => simp [svPreLt] at h1
  | cons a as =>
    cases y with
    | nil => simp [svPreLt] at h2
    | cons b bs =>
      cases z with
      | nil => simp [svPreLt]
      | cons c cs =>
        simp only [svPreLt] at h1 h2 ⊢
        exact @lexLtBy_trans _ preIdLt (fun p q r hpq hqr => preIdLt_trans hpq hqr)
          (fun p q hpq hqp => preIdLt_eq_of_not hpq hqp) _ _ _ h1 h2

theorem svPreLt_eq_of_not {x y : List PreId} (h1 : svPreLt x y = false) (h2 : svPreLt y x = false) :
    x = y := by
  cases x with
  | nil =>
    cases y with
    | nil => rfl
    | cons b bs => simp [svPreLt] at h2
  | cons a as =>
    cases y with
    | nil => simp [svPreLt] at h1
    | cons b bs =>
      simp only [svPreLt] at h1 h2
      exact @lexLtBy_eq_of_not _ preIdLt (fun p q hpq hqp => preIdLt_eq_of_not hpq hqp) _ _ h1 h2

theorem svPreLt_irrefl (x : List PreId) : svPreLt x x = false := by
  cases x with
  | nil => rfl
  | cons a as =>
    simp only [svPreLt]
    exact lexLtBy_irrefl (fun p => preIdLt_irrefl p) _

theorem ltChain_trans {m n p : Nat} {k1 k2 k3 : Bool}
    (hk : k1 = true → k2 = true → k3 = true)
    (h1 : ltChain m n k1 = true) (h2 : ltChain n p k2 = true) :
    ltChain m p k3 = true := by
  unfold ltChain at h1 h2 ⊢
  by_cases hmn : m < n
  · by_cases hnp : n < p
    · simp [show m < p by omega]
    · by_cases hpn : p < n
      · simp [hnp, hpn] at h2
      · have hnpeq : n = p := by omega
        subst hnpeq
        simp [hmn]
  · by_cases hnm : n < m
    · simp [hmn, hnm] at h1
    · have hmneq : m = n := by omega
      subst hmneq
      simp [Nat.lt_irrefl] at h1
      by_cases hnp : m < p
      · simp [hnp]
      · by_cases hpn : p < m
        · simp [hnp, hpn] at h2
        · have hmpeq : m = p := by omega
          subst hmpeq
          simp [Nat.lt_irrefl] at h2 ⊢
          exact hk h1 h2

theorem ltChain_eq_of_not {m n : Nat} {k1 k2 : Bool}
    (h1 : ltChain m n k1 = false) (h2 : ltChain n m k2 = false) :
    m = n ∧ k1 = false ∧ k2 = false := by
  unfold ltChain at h1 h2
  by_cases hmn : m < n
  · simp [hmn] at h1
  · by_cases hnm : n < m
    · simp [hnm] at h2
    · have hmneq : m = n := by omega
      subst hmneq
      simp [Nat.lt_irrefl] at h1 h2
      exact ⟨rfl, h1, h2⟩

theorem ltChain_self (m : Nat) (k : Bool) : ltChain m m k = k := by
  simp [ltChain, Nat.lt_irrefl]

theorem Semver.ltB_trans {a b c : Semver} (h1 : a.ltB b = true) (h2 : b.ltB c = true) :
    a.ltB c = true := by
  unfold Semver.ltB at h1 h2 ⊢
  refine ltChain_trans (fun x1 x2 => ?_) h1 h2
  refine ltChain_trans (fun y1 y2 => ?_) x1 x2
  refine ltChain_trans (fun z1 z2 => ?_) y1 y2
  exact svPreLt_trans z1 z2

theorem Semver.ltB_eq_of_not {a b : Semver} (h1 : a.ltB b = false) (h2 : b.ltB a = false) :
    a = b := by
  unfold Semver.ltB at h1 h2
  obtain ⟨e1, h1, h2⟩ := ltChain_eq_of_not h1 h2
  obtain ⟨e2, h1, h2⟩ := ltChain_eq_of_not h1 h2
  obtain ⟨e3, h1, h2⟩ := ltChain_eq_of_not h1 h2
  have e4 := svPreLt_eq_of_not h1 h2
  cases a
  cases b
  simp_all

theorem Semver.ltB_irrefl (a : Semver) : a.ltB a = false := by
  unfold Semver.ltB
  simp [ltChain_self, svPreLt_irrefl]

theorem Semver.ltB_asymm {a b : Semver} (h : a.ltB b = true) : b.ltB a = false := by
  cases hba : b.ltB a
  · rfl
  · exact absurd (Semver.ltB_trans h hba) (by simp [Semver.ltB_irrefl])

theorem svCompareI_le_zero_iff {x y : Semver} : svCompareI x y ≤ 0 ↔ y.ltB x = false := by
  unfold svCompareI
  by_cases hxy : x.ltB y = true
  · simp [hxy, Semver.ltB_asymm hxy]
  · by_cases hyx : y.ltB x = true
    · simp [hxy, hyx]
    · simp_all

theorem Semver.notLtB_trans {a b c : Semver} (h1 : a.ltB b = false) (h2 : b.ltB c = false) :
    a.ltB c = false := by
  cases hac : a.ltB c
  · rfl
  · cases hcb : c.ltB b
    · have : b = c := Semver.ltB_eq_of_not h2 hcb
      subst this
      exact absurd hac (by simp [h1])
    · exact absurd (Semver.ltB_trans hac hcb) (by simp [h1])

theorem versionsDescCmp_le_trans {a b c : String}
    (h1 : versionsDescCmp a b ≤ 0) (h2 : versionsDescCmp b c ≤ 0) :
    versionsDescCmp a c ≤ 0 := by
  unfold versionsDescCmp at h1 h2 ⊢
  cases hpa : semverParse a with
  | none =>
    cases hpb : semverParse b with
    | none =>
      cases hpc : semverParse c with
      | none => simp
      | some zc => simp [hpb, hpc] at h2
    | some zb => simp [hpa, hpb] at h1
  | some za =>
    cases hpc : semverParse c with
    | none => simp
    | some zc =>
      cases hpb : semverParse b with
      | none => simp [hpb, hpc] at h2
      | some zb =>
        rw [hpa, hpb] at h1
        rw [hpb, hpc] at h2
        have hab : za.ltB zb = false := svCompareI_le_zero_iff.mp h1
        have hbc : zb.ltB zc = false := svCompareI_le_zero_iff.mp h2
        exact svCompareI_le_zero_iff.mpr (Semver.notLtB_trans hab hbc)

theorem versionsDescCmp_le_total (a b : String) :
    versionsDescCmp a b ≤ 0 ∨ versionsDescCmp b a ≤ 0 := by
  unfold versionsDescCmp
  cases hpa : semverParse a with
  | none =>
    cases hpb : semverParse b with
    | none => simp
    | some zb => simp
  | some za =>
    cases hpb : semverParse b with
    | none => simp
    | some zb =>
      by_cases hab : za.ltB zb = true
      · exact Or.inr (svCompareI_le_zero_iff.mpr (Semver.ltB_asymm hab))
      · exact Or.inl (svCompareI_le_zero_iff.mpr (by simpa using hab))

theorem isVersionGreater_self (s : String) : isVersionGreater s s = false := by
  unfold isVersionGreater
  cases hp : semverParse s with
  | none => rfl
  | some z => simp [Semver.ltB_irrefl]

theorem isVersionGreater_isSome {c i : String} (h : isVersionGreater c i = true) :
    (semverParse c).isSome = true ∧ (semverParse i).isSome = true := by
  unfold isVersionGreater at h
  cases hpc : semverParse c with
  | none => simp [hpc] at h
  | some zc =>
    cases hpi : semverParse i with
    | none => simp [hpc, hpi] at h
    | some zi => simp

theorem notGreater_of_cmp_le {vn un : String}
    (hv : (semverParse vn).isSome = true)
    (hle : versionsDescCmp vn un ≤ 0) :
    isVersionGreater un vn = false := by
  obtain ⟨x, hx⟩ := Option.isSome_iff_exists.mp hv
  unfold versionsDescCmp at hle
  unfold isVersionGreater
  cases hpu : semverParse un with
  | none => rfl
  | some y =>
    rw [hx, hpu] at hle
    rw [hx]
    exact svCompareI_le_zero_iff.mp hle

theorem sortVersionsDesc_perm (items : List α) (pickVersion : α → String) :
    (sortVersionsDesc items pickVersion).Perm items :=
  stableSortBy_perm _ items

theorem sortVersionsDesc_pairwise (items : List α) (pickVersion : α → String) :
    (sortVersionsDesc items pickVersion).Pairwise
      (fun a b => versionsDescCmp (pickVersion a) (pickVersion b) ≤ 0) := by
  have h := @pairwise_stableSortBy α
    (fun a b => decide (versionsDescCmp (pickVersion a) (pickVersion b) ≤ 0))
    (fun a b c h1 h2 => decide_eq_true
      (versionsDescCmp_le_trans (of_decide_eq_true h1) (of_decide_eq_true h2)))
    (fun a b => by
      rcases versionsDescCmp_le_total (pickVersion a) (pickVersion b) with h | h <;> simp [h])
    items
  exact h.imp (fun hab => of_decide_eq_true hab)

theorem evaluatorGates_first {dparse : String → Option Int}
    {installedVersion os arch : String} {deviceId : Option String}
    {allowPrerelease : Bool} {now : Int} {v : VersionRow}
    (h : evaluatorGates dparse installedVersion os arch deviceId allowPrerelease now v = true) :
    isVersionGreater v.version_name installedVersion = true := by
  unfold evaluatorGates at h
  simp only [Bool.and_eq_true] at h
  exact h.1.1

/-! ## Claim theorems -/

/-- C1: for every update check with a valid installed semver and supported
os/arch (the validated inputs with which the evaluator runs), the scan over
the channel's published versions returns `some v` only for a version
passing all five gates such that no version passing all five gates is
semantically greater, and returns `none` exactly when no version passes
all five gates — i.e. it is the first eligible version in descending
semantic-version order. Instantiated on the spec's fixture, the scan skips
"1.2.0" (no compatible build) in favor of "1.1.0". -/
theorem checkForUpdate_first_eligible
    (dparse : String → Option Int) (installedVersion os arch : String)
    (deviceId : Option String) (allowPrerelease : Bool) (now : Int)
    (versions : List VersionRow)
    (hInstalled : (semverParse installedVersion).isSome = true)
    (hOs : isSupportedOs os = true)
    (hArch : isSupportedArch arch = true) :
    (∀ v, checkForUpdateEligible dparse installedVersion os arch deviceId allowPrerelease now versions = some v →
      v ∈ versions ∧
      evaluatorGates dparse installedVersion os arch deviceId allowPrerelease now v = true ∧
      ∀ u ∈ versions,
        evaluatorGates dparse installedVersion os arch deviceId allowPrerelease now u = true →
          isVersionGreater u.version_name v.version_name = false) ∧
    (checkForUpdateEligible dparse installedVersion os arch deviceId allowPrerelease now versions = none →
      ∀ u ∈ versions,
        evaluatorGates dparse installedVersion os arch deviceId allowPrerelease now u = false) := by
  constructor
  · intro v hres
    unfold checkForUpdateEligible at hres
    refine ⟨?_, List.find?_some hres, ?_⟩
    · exact (sortVersionsDesc_perm versions (fun w => w.version_name)).mem_iff.mp
        (List.mem_of_find?_eq_some hres)
    · intro u hu hgu
      obtain ⟨l₁, l₂, hsplit, hfail⟩ := find?_decomp hres
      have husort : u ∈ sortVersionsDesc versions (fun w => w.version_name) :=
        (sortVersionsDesc_perm versions (fun w => w.version_name)).mem_iff.mpr hu
      rw [hsplit] at husort
      rcases List.mem_append.mp husort with hmem | hmem
      · exact absurd hgu (by simp [hfail u hmem])
      · rcases List.mem_cons.mp hmem with rfl | hmem
        · exact isVersionGreater_self _
        · have hpair := sortVersionsDesc_pairwise versions (fun w => w.version_name)
          rw [hsplit] at hpair
          have hle : versionsDescCmp v.version_name u.version_name ≤ 0 :=
            (List.pairwise_cons.mp (List.pairwise_append.mp hpair).2.1).1 u hmem
          have hvsome : (semverParse v.version_name).isSome = true :=
            (isVersionGreater_isSome (evaluatorGates_first (List.find?_some hres))).1
          exact notGreater_of_cmp_le hvsome hle
  · intro hres u hu
    unfold checkForUpdateEligible at hres
    have husort : u ∈ sortVersionsDesc versions (fun w => w.version_name) :=
      (sortVersionsDesc_perm versions (fun w => w.version_name)).mem_iff.mpr hu
    have := List.find?_eq_none.mp hres u husort
    simpa using this

/-- C1 witness: the spec's fixture — installed "1.0.0", published
versions 1.2.0 / 1.1.0 / 0.9.0 all in-window at 100% rollout, a
(macos, arm64) build only on 1.1.0 — evaluates to target "1.1.0", and the
theorem instantiates on it. -/
theorem checkForUpdate_first_eligible_witness :
    ((semverParse "1.0.0").isSome = true ∧
      isSupportedOs "macos" = true ∧ isSupportedArch "arm64" = true) ∧
    checkForUpdateEligible demoDParse "1.0.0" "macos" "arm64" none false 0 demoVersions = some demoV110 ∧
    (demoV110 ∈ demoVersions ∧
      evaluatorGates demoDParse "1.0.0" "macos" "arm64" none false 0 demoV110 = true ∧
      ∀ u ∈ demoVersions,
        evaluatorGates demoDParse "1.0.0" "macos" "arm64" none false 0 u = true →
          isVersionGreater u.version_name demoV110.version_name = false) :=
  ⟨⟨rfl, rfl, rfl⟩, rfl,
    (checkForUpdate_first_eligible demoDParse "1.0.0" "macos" "arm64" none false 0 demoVersions
      rfl rfl rfl).1 demoV110 rfl⟩

/-- C2 counterexample: for the present-but-empty device id `""` with
rollout percentage 50, the code returns `false`, while the claim's
"otherwise" branch (device id present, 0 < pct < 100) prescribes the hash
rule, whose value at `""` is `0 % 100 = 0 < 50`, i.e. `true`. -/
theorem isDeviceInRolloutBucket_empty_counterexample :
    isDeviceInRolloutBucket (some "") 50 = false ∧
    decide ((((("".data.foldl (fun acc c => (acc * 31 + jsCharCodeUnit0 c) % 1000) 0) % 100 : Nat) : Int)) < 50) = true := by
  decide

/-- C2 (amended): `isDeviceInRolloutBucket` is `true` for every pct ≥ 100
regardless of the device id; `false` for every pct ≤ 0; `false` whenever
the device id is absent **or empty** (with pct < 100); and otherwise
`true` exactly when the rolling hash (fold of `(acc*31 + charCode) % 1000`
from 0 over the device id's characters) taken `% 100` is strictly below
the percentage. -/
theorem isDeviceInRolloutBucket_spec (deviceId : Option String) (pct : Int) :
    (100 ≤ pct → isDeviceInRolloutBucket deviceId pct = true) ∧
    (pct ≤ 0 → isDeviceInRolloutBucket deviceId pct = false) ∧
    (pct < 100 → (deviceId = none ∨ deviceId = some "") →
      isDeviceInRolloutBucket deviceId pct = false) ∧
    (∀ s, deviceId = some s → s ≠ "" → 0 < pct → pct < 100 →
      isDeviceInRolloutBucket deviceId pct =
        decide (((((s.data.foldl (fun acc c => (acc * 31 + jsCharCodeUnit0 c) % 1000) 0) % 100 : Nat) : Int)) < pct)) := by
  refine ⟨?_, ?_, ?_, ?_⟩
  · intro h
    unfold isDeviceInRolloutBucket
    simp [h]
  · intro h
    have h' : ¬ 100 ≤ pct := by omega
    unfold isDeviceInRolloutBucket
    simp [h', h]
  · intro h hd
    have h' : ¬ 100 ≤ pct := by omega
    unfold isDeviceInRolloutBucket
    by_cases h0 : pct ≤ 0
    · rcases hd with rfl | rfl <;> simp [h', h0]
    · rcases hd with rfl | rfl <;> simp [h', h0]
  · intro s hds hs h0 h100
    subst hds
    have h' : ¬ 100 ≤ pct := by omega
    have h0' : ¬ pct ≤ 0 := by omega
    unfold isDeviceInRolloutBucket
    simp [h', h0', hs, deviceIdHash]

/-- C2 witness: at device id "d1" and percentage 50 the amended
characterization instantiates; the hash of "d1" is 149, bucket 49. -/
theorem isDeviceInRolloutBucket_spec_witness :
    isDeviceInRolloutBucket (some "d1") 50 =
      decide ((((("d1".data.foldl (fun acc c => (acc * 31 + jsCharCodeUnit0 c) % 1000) 0) % 100 : Nat) : Int)) < 50) :=
  (isDeviceInRolloutBucket_spec (some "d1") 50).2.2.2 "d1" rfl (by decide) (by decide) (by decide)

/-- C10: the Update Evaluator's and the Manifest Builder's independently
implemented `resolveDistribution` copies are extensionally equal, and both
return the explicit distribution when it is `'store'` or `'direct'` and
otherwise infer `'store'` exactly from a truthy
`platform_metadata.external`, `'direct'` otherwise. -/
theorem resolveDistribution_copies_equal (build : PlatformBuild) :
    resolveDistributionUpdate build = resolveDistributionPublish build ∧
    ((build.distribution = .vstr "store" ∨ build.distribution = .vstr "direct") →
      JSVal.vstr (resolveDistributionUpdate build) = build.distribution) ∧
    (¬ (build.distribution = .vstr "store" ∨ build.distribution = .vstr "direct") →
      resolveDistributionUpdate build =
        if jsTruthy (jsGet build.platformMetadata "external") then "store" else "direct") := by
  refine ⟨rfl, ?_, ?_⟩
  · intro h
    unfold resolveDistributionUpdate
    rcases h with h | h <;> rw [h] <;> simp
  · intro h
    unfold resolveDistributionUpdate
    cases hd : build.distribution with
    | vstr s =>
      have h1 : s ≠ "store" := fun hs => h (Or.inl (by rw [hd, hs]))
      have h2 : s ≠ "direct" := fun hs => h (Or.inr (by rw [hd, hs]))
      simp [h1, h2]
    | vnum n => rfl
    | vbool b => rfl
    | vnull => rfl
    | vundefined => rfl
    | vdate iso => rfl
    | vobj fields => rfl

/-- C10 witness: on the store fixture build both copies agree and return
its explicit `'store'` distribution. -/
theorem resolveDistribution_copies_equal_witness :
    resolveDistributionUpdate demoStoreBuild.toPlatformBuild =
      resolveDistributionPublish demoStoreBuild.toPlatformBuild ∧
    JSVal.vstr (resolveDistributionUpdate demoStoreBuild.toPlatformBuild) =
      demoStoreBuild.toPlatformBuild.distribution :=
  ⟨(resolveDistribution_copies_equal demoStoreBuild.toPlatformBuild).1,
   (resolveDistribution_copies_equal demoStoreBuild.toPlatformBuild).2.1 (Or.inl rfl)⟩

/-- C6: for an eligible version, the reported `mandatory` flag equals
`is_mandatory` OR-ed with "the resolved policy's minSupportedVersion is
set, is a valid semver, and the installed version is strictly below it" —
so a satisfied min-version gate forces `mandatory = true` even when
`is_mandatory` is `false`. -/
theorem computeMandatory_spec (installedVersion : String) (eligible : VersionRow)
    (hInstalled : (semverParse installedVersion).isSome = true) :
    computeMandatory installedVersion eligible =
      (eligible.is_mandatory ||
        match (getUpdatePolicyFromVersion eligible.toPolicySource).minSupportedVersion with
        | some m => (semverParse m).isSome && svLtStr installedVersion m
        | none => false) := by
  unfold computeMandatory
  cases hm : (getUpdatePolicyFromVersion eligible.toPolicySource).minSupportedVersion with
  | none => simp [hm]
  | some m =>
    simp only [hm]
    by_cases hm0 : m = ""
    · subst hm0
      have hp : (semverParse "").isSome = false := rfl
      simp [hp]
    · simp [hm0]

/-- C6 witness: the spec's override fixture — `is_mandatory = false`,
`minSupportedVersion = "1.0.0"`, installed `"0.9.0"` — reports
`mandatory = true`. -/
theorem computeMandatory_spec_witness :
    computeMandatory "0.9.0" demoMinRow = true ∧ demoMinRow.is_mandatory = false :=
  ⟨(computeMandatory_spec "0.9.0" demoMinRow rfl).trans rfl, rfl⟩

theorem lookup_filter_ne {β : Type _} {l : List (String × β)} {k bad : String} (hk : k ≠ bad) :
    (l.filter (fun kv => kv.1 ≠ bad)).lookup k = l.lookup k := by
  induction l with
  | nil => rfl
  | cons hd t ih =>
    obtain ⟨k', v⟩ := hd
    by_cases hk' : k' = bad
    · subst hk'
      have hkk : (k == k') = false := beq_eq_false_iff_ne.mpr hk
      simp only [ne_eq, decide_not] at ih
      simp [List.filter_cons, List.lookup, hkk, ih]
    · by_cases hkeq : k = k'
      · subst hkeq
        simp [List.filter_cons, hk', List.lookup]
      · have hkk : (k == k') = false := beq_eq_false_iff_ne.mpr hkeq
        simp only [ne_eq, decide_not] at ih
        simp [List.filter_cons, hk', List.lookup, hkk, ih]

/-- C9: `buildVersionMetadataWithPolicy` returns a document whose
`updatePolicy` equals the given policy; every other key of the defensively
parsed existing metadata keeps its value untouched; and a non-object
(malformed) input is treated as the empty document. -/
theorem buildVersionMetadataWithPolicy_frame (existingMetadata : JSVal) (policy : UpdatePolicy) :
    (buildVersionMetadataWithPolicy existingMetadata policy).updatePolicy = policy ∧
    (jsIsObjectNotNull existingMetadata = true →
      ∀ k, k ≠ "updatePolicy" →
        (buildVersionMetadataWithPolicy existingMetadata policy).rest.lookup k =
          (jsOwnFields existingMetadata).lookup k) ∧
    (jsIsObjectNotNull existingMetadata = false →
      (buildVersionMetadataWithPolicy existingMetadata policy).rest = []) := by
  refine ⟨rfl, ?_, ?_⟩
  · intro hobj k hk
    unfold buildVersionMetadataWithPolicy parseVersionMetadata
    simp only [hobj, if_pos]
    exact lookup_filter_ne hk
  · intro hobj
    unfold buildVersionMetadataWithPolicy parseVersionMetadata
    simp [hobj]

/-- C9 witness: writing a policy into a metadata document with extra keys
keeps those keys' values and installs exactly the given policy; a
malformed (string) metadata input yields the empty remainder. -/
theorem buildVersionMetadataWithPolicy_frame_witness :
    (buildVersionMetadataWithPolicy demoMetadata demoPolicy).updatePolicy = demoPolicy ∧
    (buildVersionMetadataWithPolicy demoMetadata demoPolicy).rest.lookup "releaseTrain" =
      (jsOwnFields demoMetadata).lookup "releaseTrain" ∧
    (buildVersionMetadataWithPolicy (.vstr "oops") demoPolicy).rest = [] :=
  ⟨(buildVersionMetadataWithPolicy_frame demoMetadata demoPolicy).1,
   (buildVersionMetadataWithPolicy_frame demoMetadata demoPolicy).2.1 rfl "releaseTrain"
     (by decide),
   (buildVersionMetadataWithPolicy_frame (.vstr "oops") demoPolicy).2.2 rfl⟩

theorem lookup_filter_self {β : Type _} (l : List (String × β)) (bad : String) :
    (l.filter (fun kv => kv.1 ≠ bad)).lookup bad = none := by
  induction l with
  | nil => rfl
  | cons hd t ih =>
    obtain ⟨k', v⟩ := hd
    by_cases hk' : k' = bad
    · subst hk'
      simpa [List.filter_cons] using ih
    · have hkk : (bad == k') = false := beq_eq_false_iff_ne.mpr (fun h => hk' h.symm)
      simp only [List.filter_cons]
      rw [if_pos (by simp [hk'])]
      simp only [List.lookup, hkk]
      exact ih

theorem lookup_append_left_none {β : Type _} {l₁ : List (String × β)} {k : String}
    (h : l₁.lookup k = none) (l₂ : List (String × β)) :
    (l₁ ++ l₂).lookup k = l₂.lookup k := by
  induction l₁ with
  | nil => rfl
  | cons hd t ih =>
    obtain ⟨k', v⟩ := hd
    by_cases hkk : (k == k') = true
    · simp [List.lookup, hkk] at h
    · have hkk' : (k == k') = false := by simpa using hkk
      simp only [List.lookup, hkk'] at h
      simpa [List.cons_append, List.lookup, hkk'] using ih h

theorem clamp_idem (v : Int) : clamp (clamp v 0 100) 0 100 = clamp v 0 100 := by
  unfold clamp
  split_ifs <;> omega

theorem parseVersionMetadata_wf (metadata : JSVal) :
    isSupportedChannel (parseVersionMetadata metadata).updatePolicy.channel = true ∧
    (∀ m, (parseVersionMetadata metadata).updatePolicy.minSupportedVersion = some m →
      (semverParse m).isSome = true) ∧
    clamp (parseVersionMetadata metadata).updatePolicy.rolloutPercentage 0 100 =
      (parseVersionMetadata metadata).updatePolicy.rolloutPercentage := by
  unfold parseVersionMetadata
  refine ⟨?_, ?_, ?_⟩
  · dsimp only
    split
    · rename_i s hs
      split
      · assumption
      · rfl
    · rfl
  · dsimp only
    intro m hm
    revert hm
    split
    · rename_i s hs
      split
      · rename_i hsome
        intro hm
        obtain rfl : s = m := by injection hm
        exact hsome
      · intro hm
        exact absurd hm (by simp)
    · intro hm
      exact absurd hm (by simp)
  · dsimp only
    split
    · exact clamp_idem _
    · rfl

theorem getUpdatePolicy_wf (source : VersionPolicySource) :
    isSupportedChannel (getUpdatePolicyFromVersion source).channel = true ∧
    (∀ m, (getUpdatePolicyFromVersion source).minSupportedVersion = some m →
      (semverParse m).isSome = true) ∧
    clamp (getUpdatePolicyFromVersion source).rolloutPercentage 0 100 =
      (getUpdatePolicyFromVersion source).rolloutPercentage := by
  obtain ⟨hch, hmin, hpct⟩ := parseVersionMetadata_wf source.metadata
  unfold getUpdatePolicyFromVersion
  refine ⟨?_, ?_, ?_⟩
  · dsimp only
    split
    · rename_i s hs
      split
      · assumption
      · exact hch
    · exact hch
  · dsimp only
    intro m hm
    revert hm
    split
    · rename_i s hs
      split
      · rename_i hsome
        intro hm
        obtain rfl : s = m := by injection hm
        exact hsome
      · exact hmin m
    · exact hmin m
  · dsimp only
    split
    · exact clamp_idem _
    · exact hpct

theorem jsOrElseStr_idem (a b : Option String) :
    jsOrElseStr a (jsOrElseStr a b) = jsOrElseStr a b := by
  cases a with
  | none => rfl
  | some s =>
    by_cases hs : s = "" <;> simp [jsOrElseStr, hs]

theorem parse_policyToJSVal (rest' : List (String × JSVal)) (p : UpdatePolicy)
    (hrest : rest'.lookup "updatePolicy" = none)
    (hch : isSupportedChannel p.channel = true)
    (hmin : ∀ m, p.minSupportedVersion = some m → (semverParse m).isSome = true)
    (hpct : clamp p.rolloutPercentage 0 100 = p.rolloutPercentage) :
    (parseVersionMetadata (.vobj (rest' ++ [("updatePolicy", policyToJSVal p)]))).updatePolicy = p := by
  obtain ⟨pch, pmin, ppct, pst, pen⟩ := p
  dsimp only at hch hmin hpct
  unfold parseVersionMetadata
  simp only [jsIsObjectNotNull, jsOwnFields, eq_self_iff_true, if_true]
  rw [lookup_append_left_none hrest]
  have hlook : (([("updatePolicy", policyToJSVal ⟨pch, pmin, ppct, pst, pen⟩)] :
      List (String × JSVal)).lookup "updatePolicy") = some (policyToJSVal ⟨pch, pmin, ppct, pst, pen⟩) := rfl
  rw [hlook]
  unfold policyToJSVal
  dsimp only [Option.getD, jsGet, List.lookup]
  cases pmin with
  | none =>
    cases pst with
    | none =>
      cases pen with
      | none => simp [hch, hpct]
      | some en => simp [hch, hpct]
    | some st =>
      cases pen with
      | none => simp [hch, hpct]
      | some en => simp [hch, hpct]
  | some m =>
    have hm : (semverParse m).isSome = true := hmin m rfl
    cases pst with
    | none =>
      cases pen with
      | none => simp [hch, hpct, hm]
      | some en => simp [hch, hpct, hm]
    | some st =>
      cases pen with
      | none => simp [hch, hpct, hm]
      | some en => simp [hch, hpct, hm]

theorem merge_over_policy (V : VersionPolicySource) (M : JSVal)
    (hM : (parseVersionMetadata M).updatePolicy = getUpdatePolicyFromVersion V) :
    getUpdatePolicyFromVersion { V with metadata := M } = getUpdatePolicyFromVersion V := by
  unfold getUpdatePolicyFromVersion at hM ⊢
  dsimp only at hM ⊢
  rw [hM]
  simp only [UpdatePolicy.mk.injEq]
  refine ⟨?_, ?_, ?_, ?_, ?_⟩
  · cases hrel : V.release_channel <;> dsimp only
    case vstr s => by_cases hsup : isSupportedChannel s = true <;> simp [hsup]
  · cases hrel : V.min_supported_version <;> dsimp only
    case vstr s => by_cases hv : (semverParse s).isSome = true <;> simp [hv]
  · cases hrel : V.rollout_percentage <;> dsimp only
  · exact jsOrElseStr_idem _ _
  · exact jsOrElseStr_idem _ _

/-- C7: resolving a version row's policy, writing it back into the row's
metadata via `buildVersionMetadataWithPolicy` (relational columns
unchanged), and resolving again yields the same policy — the
resolve/write-back round trip is idempotent. -/
theorem resolvePolicy_roundtrip (V : VersionPolicySource) :
    getUpdatePolicyFromVersion
      { V with metadata :=
          metadataToJSVal (buildVersionMetadataWithPolicy V.metadata (getUpdatePolicyFromVersion V)) } =
    getUpdatePolicyFromVersion V := by
  obtain ⟨hch, hmin, hpct⟩ := getUpdatePolicy_wf V
  have hrest : ((parseVersionMetadata V.metadata).rest).lookup "updatePolicy" = none := by
    unfold parseVersionMetadata
    dsimp only
    exact lookup_filter_self _ _
  refine merge_over_policy V _ ?_
  unfold metadataToJSVal buildVersionMetadataWithPolicy
  dsimp only
  exact parse_policyToJSVal _ _ hrest hch hmin hpct

theorem jsOrElseStr_eq_or (a : Option String) (b : Option String) :
    jsOrElseStr a b =
      (match a with
       | some s => if s = "" then none else some s
       | none => none).or b := by
  cases a with
  | none => rfl
  | some s => by_cases hs : s = "" <;> simp [jsOrElseStr, hs, Option.or]

theorem parseVersionMetadata_fields (metadata : JSVal) :
    (parseVersionMetadata metadata).updatePolicy =
      { channel := (relChannelValid (metadataPolicyField metadata "channel")).getD "stable"
        minSupportedVersion := relSemverValid (metadataPolicyField metadata "minSupportedVersion")
        rolloutPercentage :=
          (relNumericClamped (metadataPolicyField metadata "rolloutPercentage")).getD 100
        rolloutStartAt := strFieldValue (metadataPolicyField metadata "rolloutStartAt")
        rolloutEndAt := strFieldValue (metadataPolicyField metadata "rolloutEndAt") } := by
  unfold parseVersionMetadata metadataPolicyField
  cases metadata <;>
    dsimp only [jsIsObjectNotNull, jsOwnFields, jsGet] <;>
    try rfl
  case vobj fields =>
    simp only [eq_self_iff_true, if_true]
    cases hl : fields.lookup "updatePolicy" with
    | none => rfl
    | some u =>
      cases u <;> try rfl
      case vobj upf =>
        simp only [Option.getD_some]
        simp only [UpdatePolicy.mk.injEq]
        refine ⟨?_, ?_, ?_, ?_, ?_⟩
        · cases hv : (upf.lookup "channel").getD .vundefined
          case vstr s =>
            by_cases hsup : isSupportedChannel s = true <;> simp [relChannelValid, hsup]
          all_goals simp [relChannelValid]
        · cases hv : (upf.lookup "minSupportedVersion").getD .vundefined <;> simp [relSemverValid]
        · cases hv : (upf.lookup "rolloutPercentage").getD .vundefined <;> simp [relNumericClamped]
        · cases hv : (upf.lookup "rolloutStartAt").getD .vundefined <;> simp [strFieldValue]
        · cases hv : (upf.lookup "rolloutEndAt").getD .vundefined <;> simp [strFieldValue]

/-- C4: policy resolution merges field by field with precedence relational
column over `metadata.updatePolicy` over hard default: a relational value
is used only when valid for its field (recognized channel, valid semver,
numeric percentage clamped to [0,100], rollout bound normalizing to a
non-empty string), else the metadata policy's normalized value, which
itself falls back to the defaults channel "stable", rolloutPercentage
100, minSupportedVersion and rollout window unset. -/
theorem getUpdatePolicy_precedence (source : VersionPolicySource) :
    ((getUpdatePolicyFromVersion source).channel =
      (relChannelValid source.release_channel).getD
        (parseVersionMetadata source.metadata).updatePolicy.channel) ∧
    ((getUpdatePolicyFromVersion source).minSupportedVersion =
      (relSemverValid source.min_supported_version).or
        (parseVersionMetadata source.metadata).updatePolicy.minSupportedVersion) ∧
    ((getUpdatePolicyFromVersion source).rolloutPercentage =
      (relNumericClamped source.rollout_percentage).getD
        (parseVersionMetadata source.metadata).updatePolicy.rolloutPercentage) ∧
    ((getUpdatePolicyFromVersion source).rolloutStartAt =
      (relDateNormalized source.rollout_start_at).or
        (parseVersionMetadata source.metadata).updatePolicy.rolloutStartAt) ∧
    ((getUpdatePolicyFromVersion source).rolloutEndAt =
      (relDateNormalized source.rollout_end_at).or
        (parseVersionMetadata source.metadata).updatePolicy.rolloutEndAt) ∧
    ((parseVersionMetadata source.metadata).updatePolicy =
      { channel := (relChannelValid (metadataPolicyField source.metadata "channel")).getD "stable"
        minSupportedVersion :=
          relSemverValid (metadataPolicyField source.metadata "minSupportedVersion")
        rolloutPercentage :=
          (relNumericClamped (metadataPolicyField source.metadata "rolloutPercentage")).getD 100
        rolloutStartAt := strFieldValue (metadataPolicyField source.metadata "rolloutStartAt")
        rolloutEndAt := strFieldValue (metadataPolicyField source.metadata "rolloutEndAt") }) := by
  refine ⟨?_, ?_, ?_, ?_, ?_, parseVersionMetadata_fields source.metadata⟩
  · unfold getUpdatePolicyFromVersion
    dsimp only
    cases source.release_channel
    case vstr s => by_cases hsup : isSupportedChannel s = true <;> simp [relChannelValid, hsup]
    all_goals simp [relChannelValid]
  · unfold getUpdatePolicyFromVersion
    dsimp only
    cases source.min_supported_version
    case vstr s => by_cases hv : (semverParse s).isSome = true <;> simp [relSemverValid, hv]
    all_goals simp [relSemverValid]
  · unfold getUpdatePolicyFromVersion
    dsimp only
    cases source.rollout_percentage <;> simp [relNumericClamped]
  · unfold getUpdatePolicyFromVersion
    dsimp only
    rw [jsOrElseStr_eq_or]
    rfl
  · unfold getUpdatePolicyFromVersion
    dsimp only
    rw [jsOrElseStr_eq_or]
    rfl

/-- C8: when some build's `platform_metadata.fallback_from` equals the
version being deleted, `deleteVersion` without force reports the
conflicting builds and mutates nothing, while with force the conflict is
still reported (carried on the outcome) and the deletion of the version
row and its builds proceeds. -/
theorem deleteVersion_conflict_spec (db : DbState) (version channel : String)
    (versionData : DbVersionRow)
    (hfound : db.versions.find?
      (fun v => v.version_name == version && v.release_channel == channel) = some versionData)
    (hconf : (db.builds.filter (fun b => fallbackFromMatches b version)).isEmpty = false) :
    (deleteVersionModel db version channel false true =
      (.conflictBlocked (db.builds.filter (fun b => fallbackFromMatches b version)), db)) ∧
    (deleteVersionModel db version channel true true =
      (.deleted (db.builds.filter (fun b => fallbackFromMatches b version))
          (db.builds.filter (fun b => b.version_id == versionData.id)).length,
        { versions := db.versions.filter (fun v => v.id ≠ versionData.id)
          builds := db.builds.filter (fun b => b.version_id ≠ versionData.id) })) := by
  unfold deleteVersionModel
  rw [hfound]
  constructor
  · simp [hconf]
  · simp [hconf]

/-- C8 witness: in the fixture store, a build of version 1.1.0 references
1.0.0 as `fallback_from`; deleting 1.0.0 without force blocks with that
build reported and the store untouched, and with force deletes the row
(it owns no builds). -/
theorem deleteVersion_conflict_spec_witness :
    (deleteVersionModel demoDeleteDb "1.0.0" "stable" false true =
      (.conflictBlocked (demoDeleteDb.builds.filter (fun b => fallbackFromMatches b "1.0.0")),
        demoDeleteDb)) ∧
    (deleteVersionModel demoDeleteDb "1.0.0" "stable" true true =
      (.deleted (demoDeleteDb.builds.filter (fun b => fallbackFromMatches b "1.0.0"))
          (demoDeleteDb.builds.filter (fun b => b.version_id == 1)).length,
        { versions := demoDeleteDb.versions.filter (fun v => v.id ≠ 1)
          builds := demoDeleteDb.builds.filter (fun b => b.version_id ≠ 1) })) :=
  deleteVersion_conflict_spec demoDeleteDb "1.0.0" "stable"
    { id := 1, version_name := "1.0.0", release_channel := "stable", is_published := false }
    rfl rfl

theorem notGreater_of_cmp_le_any {vn un : String} (hle : versionsDescCmp vn un ≤ 0) :
    isVersionGreater un vn = false := by
  unfold versionsDescCmp at hle
  unfold isVersionGreater
  cases hpu : semverParse un with
  | none => cases hpv : semverParse vn <;> rfl
  | some y =>
    rw [hpu] at hle
    cases hpv : semverParse vn with
    | none => rfl
    | some x =>
      rw [hpv] at hle
      have hle2 : svCompareI y x ≤ 0 := by simpa using hle
      simpa using svCompareI_le_zero_iff.mp hle2

theorem lookup_append_or {β : Type _} (l₁ l₂ : List (String × β)) (k : String) :
    (l₁ ++ l₂).lookup k = (l₁.lookup k).or (l₂.lookup k) := by
  induction l₁ with
  | nil => simp
  | cons hd t ih =>
    obtain ⟨k', v⟩ := hd
    by_cases h : (k == k') = true
    · simp [List.lookup, h]
    · have h' : (k == k') = false := by simpa using h
      simp [List.lookup, h', ih]

theorem find?_append_or {p : α → Bool} (l₁ l₂ : List α) :
    (l₁ ++ l₂).find? p = (l₁.find? p).or (l₂.find? p) := by
  induction l₁ with
  | nil => simp
  | cons a t ih =>
    by_cases h : p a = true
    · rw [List.cons_append, List.find?_cons_of_pos _ h, List.find?_cons_of_pos _ h]
      rfl
    · rw [List.cons_append, List.find?_cons_of_neg _ (by simpa using h),
        List.find?_cons_of_neg _ (by simpa using h)]
      exact ih

theorem find?_flatMap_decomp {f : α → List β} {p : β → Bool} {l : List α} {x : β}
    (h : (l.flatMap f).find? p = some x) :
    ∃ l₁ w l₂, l = l₁ ++ w :: l₂ ∧ (∀ a ∈ l₁, (f a).find? p = none) ∧ (f w).find? p = some x := by
  induction l with
  | nil => simp [List.flatMap] at h
  | cons a rest ih =>
    rw [List.flatMap_cons, find?_append_or] at h
    cases hfa : (f a).find? p with
    | some y =>
      rw [hfa] at h
      obtain rfl : y = x := by injection h
      exact ⟨[], a, rest, rfl, by simp, hfa⟩
    | none =>
      rw [hfa] at h
      simp only [Option.none_or] at h
      obtain ⟨l₁, w, l₂, rfl, hall, hw⟩ := ih h
      refine ⟨a :: l₁, w, l₂, rfl, ?_, hw⟩
      intro b hb
      rcases List.mem_cons.mp hb with rfl | hb
      · exact hfa
      · exact hall b hb

theorem latestSelectionStep_eq (acc : List (String × ManifestBuild)) (versionName : String)
    (b : PlatformBuild) :
    latestSelectionStep acc versionName b =
      if (acc.lookup (comboKeyOf b)).isSome then acc
      else acc ++ [(comboKeyOf b, selectedBuildOf versionName b)] := rfl

theorem selectLatest_flatten (versions : List VersionRow) :
    selectLatestBuilds versions =
      ((sortVersionsDesc versions (fun v => v.version_name)).flatMap
        (fun v => v.platforms.map (fun b => (v.version_name, b)))).foldl
        (fun acc p => latestSelectionStep acc p.1 p.2) [] := by
  unfold selectLatestBuilds
  generalize sortVersionsDesc versions (fun v => v.version_name) = ordered
  suffices h : ∀ (vs : List VersionRow) (init : List (String × ManifestBuild)),
      vs.foldl (fun acc v => v.platforms.foldl
        (fun acc2 b => latestSelectionStep acc2 v.version_name b) acc) init =
      (vs.flatMap (fun v => v.platforms.map (fun b => (v.version_name, b)))).foldl
        (fun acc p => latestSelectionStep acc p.1 p.2) init by
    exact h ordered []
  intro vs
  induction vs with
  | nil => intro init; rfl
  | cons v rest ih =>
    intro init
    rw [List.foldl_cons, List.flatMap_cons, List.foldl_append, List.foldl_map]
    exact ih _

theorem latest_foldl_lookup (pairs : List (String × PlatformBuild)) (k : String) :
    ∀ acc : List (String × ManifestBuild),
      (pairs.foldl (fun a p => latestSelectionStep a p.1 p.2) acc).lookup k =
        (acc.lookup k).or ((pairs.find? (fun p => comboKeyOf p.2 == k)).map
          (fun p => selectedBuildOf p.1 p.2)) := by
  induction pairs with
  | nil => intro acc; simp
  | cons pr rest ih =>
    intro acc
    obtain ⟨vn, b⟩ := pr
    rw [List.foldl_cons]
    dsimp only
    rw [latestSelectionStep_eq]
    by_cases hk : (comboKeyOf b == k) = true
    · have hkeq : comboKeyOf b = k := by simpa using hk
      rw [List.find?_cons_of_pos _ (by simpa using hk)]
      by_cases hin : (acc.lookup (comboKeyOf b)).isSome = true
      · rw [if_pos hin, ih acc]
        have hin2 : (acc.lookup k).isSome = true := by
          rw [← hkeq]
          exact hin
        obtain ⟨rec, hrec⟩ := Option.isSome_iff_exists.mp hin2
        rw [hrec]
        rfl
      · rw [if_neg hin, ih _]
        rw [lookup_append_or]
        have hacc : acc.lookup k = none := by
          rw [← hkeq]
          exact Option.not_isSome_iff_eq_none.mp (by simpa using hin)
        have hone : ([(comboKeyOf b, selectedBuildOf vn b)] : List (String × ManifestBuild)).lookup k
            = some (selectedBuildOf vn b) := by
          rw [← hkeq]
          simp [List.lookup]
        rw [hacc, hone]
        rfl
    · have hkne : comboKeyOf b ≠ k := by simpa using hk
      rw [List.find?_cons_of_neg _ (by simpa using hk)]
      by_cases hin : (acc.lookup (comboKeyOf b)).isSome = true
      · rw [if_pos hin, ih acc]
      · rw [if_neg hin, ih _]
        rw [lookup_append_or]
        have hone : ([(comboKeyOf b, selectedBuildOf vn b)] : List (String × ManifestBuild)).lookup k
            = none := by
          have : (k == comboKeyOf b) = false := beq_eq_false_iff_ne.mpr (fun h => hkne h.symm)
          simp [List.lookup, this]
        rw [hone]
        simp

/-- C3: in the channel-latest manifest builder, published versions are
walked in descending semantic-version order and, for every
`(os, arch, type, distribution)` combo key, the selected build comes from
the first (semantically highest) version in that order having a build for
the key: whenever the selection holds a record for a key, that record is
the resolved build of a version `w` owning a build for the key, and no
version owning a build for the key is semantically greater than `w` — so
a filled key is never regressed to a lower-ranked version. -/
theorem latestManifest_first_version_per_key (versions : List VersionRow) (k : String)
    (sel : ManifestBuild)
    (hsel : (selectLatestBuilds versions).lookup k = some sel) :
    ∃ w, w ∈ versions ∧
      (∃ b, b ∈ w.platforms ∧ comboKeyOf b = k ∧ sel = selectedBuildOf w.version_name b) ∧
      ∀ u ∈ versions, (∃ b, b ∈ u.platforms ∧ comboKeyOf b = k) →
        isVersionGreater u.version_name w.version_name = false := by
  rw [selectLatest_flatten, latest_foldl_lookup] at hsel
  have h0 : (([] : List (String × ManifestBuild)).lookup k) = none := rfl
  rw [h0, Option.none_or] at hsel
  obtain ⟨⟨vn, b⟩, hfind, hmk⟩ := Option.map_eq_some'.mp hsel
  obtain ⟨l₁, w, l₂, hsplit, hfailall, hw⟩ := find?_flatMap_decomp hfind
  have hmem := List.mem_of_find?_eq_some hw
  obtain ⟨b₀, hb₀, hpair⟩ := List.mem_map.mp hmem
  have hpred := List.find?_some hw
  obtain ⟨hvn, hbeq⟩ : w.version_name = vn ∧ b₀ = b := by
    injection hpair with h1 h2
    exact ⟨h1, h2⟩
  subst hbeq
  have hkey : comboKeyOf b₀ = k := by simpa using hpred
  have hwsorted : w ∈ sortVersionsDesc versions (fun v => v.version_name) := by
    rw [hsplit]
    exact List.mem_append.mpr (Or.inr (List.mem_cons_self _ _))
  refine ⟨w, (sortVersionsDesc_perm versions (fun v => v.version_name)).mem_iff.mp hwsorted,
    ⟨b₀, hb₀, hkey, by rw [← hmk, ← hvn]⟩, ?_⟩
  intro u hu ⟨b', hb', hkb'⟩
  have husort : u ∈ sortVersionsDesc versions (fun v => v.version_name) :=
    (sortVersionsDesc_perm versions (fun v => v.version_name)).mem_iff.mpr hu
  rw [hsplit] at husort
  rcases List.mem_append.mp husort with hmem1 | hmem1
  · exfalso
    have hnone := hfailall u hmem1
    have := List.find?_eq_none.mp hnone (u.version_name, b')
      (List.mem_map.mpr ⟨b', hb', rfl⟩)
    exact this (by simpa using hkb')
  · rcases List.mem_cons.mp hmem1 with rfl | hmem2
    · exact isVersionGreater_self _
    · have hpair2 := sortVersionsDesc_pairwise versions (fun v => v.version_name)
      rw [hsplit] at hpair2
      have hle : versionsDescCmp w.version_name u.version_name ≤ 0 :=
        (List.pairwise_cons.mp (List.pairwise_append.mp hpair2).2.1).1 u hmem2
      exact notGreater_of_cmp_le_any hle

/-- C3 witness: on the eligibility fixture (versions 0.9.0 / 1.2.0 /
1.1.0, with the only macOS arm64 installer on 1.1.0) the selection fills
that combo key from version 1.1.0, and the theorem instantiates. -/
theorem latestManifest_first_version_per_key_witness :
    (selectLatestBuilds demoVersions).lookup "macos::arm64::installer::direct" =
      some (selectedBuildOf "1.1.0" demoBuildMac) ∧
    (∃ w, w ∈ demoVersions ∧
      (∃ b, b ∈ w.platforms ∧ comboKeyOf b = "macos::arm64::installer::direct" ∧
        selectedBuildOf "1.1.0" demoBuildMac = selectedBuildOf w.version_name b) ∧
      ∀ u ∈ demoVersions,
        (∃ b, b ∈ u.platforms ∧ comboKeyOf b = "macos::arm64::installer::direct") →
          isVersionGreater u.version_name w.version_name = false) :=
  ⟨rfl, latestManifest_first_version_per_key demoVersions "macos::arm64::installer::direct"
    (selectedBuildOf "1.1.0" demoBuildMac) rfl⟩

theorem lookup_updateAssocAppend {α : Type _} (k k' : String) (f : α → α) (dflt : α) :
    ∀ l : List (String × α),
      (updateAssocAppend k f dflt l).lookup k' =
        if k' = k then some (f ((l.lookup k).getD dflt)) else l.lookup k' := by
  intro l
  induction l with
  | nil =>
    by_cases hk : k' = k
    · subst hk
      simp [updateAssocAppend, List.lookup]
    · have hkb : (k' == k) = false := beq_eq_false_iff_ne.mpr hk
      simp [updateAssocAppend, List.lookup, hkb, hk]
  | cons hd t ih =>
    obtain ⟨k₀, v⟩ := hd
    by_cases hmatch : k₀ = k
    · subst hmatch
      simp only [updateAssocAppend, if_pos rfl]
      by_cases hk : k' = k₀
      · subst hk
        simp [List.lookup]
      · have hkb : (k' == k₀) = false := beq_eq_false_iff_ne.mpr hk
        simp [List.lookup, hkb, hk]
    · simp only [updateAssocAppend, if_neg hmatch]
      by_cases hk : k' = k₀
      · subst hk
        simp [List.lookup, hmatch]
      · have hkb : (k' == k₀) = false := beq_eq_false_iff_ne.mpr hk
        have hkb2 : (k == k₀) = false := beq_eq_false_iff_ne.mpr (fun h => hmatch h.symm)
        simp [List.lookup, hkb, hkb2, ih]

theorem groupedLookup_pushSource (g : GroupedSources) (os' arch' type' : String)
    (s : ManifestSource) (os arch type : String) :
    groupedLookup (pushSource g os' arch' type' s) os arch type =
      if os = os' ∧ arch = arch' ∧ type = type' then
        some (((groupedLookup g os arch type).getD []) ++ [s])
      else groupedLookup g os arch type := by
  unfold pushSource groupedLookup
  by_cases ho : os = os'
  case neg =>
    rw [lookup_updateAssocAppend, if_neg ho, if_neg (fun h => ho h.1)]
  case pos =>
  subst ho
  rw [lookup_updateAssocAppend, if_pos rfl]
  cases hg : g.lookup os with
  | none =>
    simp only [Option.getD_none, Option.some_bind, Option.none_bind]
    rw [lookup_updateAssocAppend]
    by_cases ha : arch = arch'
    case neg =>
      rw [if_neg ha, if_neg (fun h => ha h.2.1)]
      rfl
    case pos =>
    subst ha
    rw [if_pos rfl]
    simp only [List.lookup_nil, Option.getD_none, Option.some_bind]
    rw [lookup_updateAssocAppend]
    by_cases ht : type = type'
    case neg =>
      rw [if_neg ht, if_neg (fun h => ht h.2.2)]
      rfl
    case pos =>
    subst ht
    rw [if_pos rfl, if_pos (by simp)]
    rfl
  | some archMap =>
    simp only [Option.getD_some, Option.some_bind]
    rw [lookup_updateAssocAppend]
    by_cases ha : arch = arch'
    case neg =>
      rw [if_neg ha, if_neg (fun h => ha h.2.1)]
    case pos =>
    subst ha
    rw [if_pos rfl]
    cases harch : archMap.lookup arch with
    | none =>
      simp only [Option.getD_none, Option.some_bind, Option.none_bind]
      rw [lookup_updateAssocAppend]
      by_cases ht : type = type'
      case neg =>
        rw [if_neg ht, if_neg (fun h => ht h.2.2)]
        rfl
      case pos =>
      subst ht
      rw [if_pos rfl, if_pos (by simp)]
      rfl
    | some typeMap =>
      simp only [Option.getD_some, Option.some_bind]
      rw [lookup_updateAssocAppend]
      by_cases ht : type = type'
      case neg =>
        rw [if_neg ht, if_neg (fun h => ht h.2.2)]
      case pos =>
      subst ht
      rw [if_pos rfl, if_pos (by simp)]

theorem groupedLookup_foldl (builds : List ManifestBuild) (os arch type : String) :
    ∀ acc : GroupedSources,
      groupedLookup (builds.foldl
        (fun g b => pushSource g b.os b.arch b.type (mkManifestSource b)) acc) os arch type =
        match groupedLookup acc os arch type with
        | some srcs => some (srcs ++ (builds.filter
            (fun b => b.os == os && b.arch == arch && b.type == type)).map mkManifestSource)
        | none =>
          if (builds.filter (fun b => b.os == os && b.arch == arch && b.type == type)).isEmpty
          then none
          else some ((builds.filter
            (fun b => b.os == os && b.arch == arch && b.type == type)).map mkManifestSource) := by
  induction builds with
  | nil =>
    intro acc
    cases hacc : groupedLookup acc os arch type <;> simp [hacc]
  | cons b rest ih =>
    intro acc
    rw [List.foldl_cons, ih]
    by_cases hb : (b.os == os && b.arch == arch && b.type == type) = true
    · have hcond : os = b.os ∧ arch = b.arch ∧ type = b.type := by
        simp only [Bool.and_eq_true, beq_iff_eq] at hb
        exact ⟨hb.1.1.symm, hb.1.2.symm, hb.2.symm⟩
      rw [groupedLookup_pushSource, if_pos hcond]
      cases hacc : groupedLookup acc os arch type with
      | some srcs =>
        simp [List.filter_cons, hb, List.append_assoc]
      | none =>
        simp [List.filter_cons, hb]
    · have hcond : ¬(os = b.os ∧ arch = b.arch ∧ type = b.type) := by
        intro h
        apply hb
        simp [h.1, h.2.1, h.2.2]
      rw [groupedLookup_pushSource, if_neg hcond]
      have hbf : (b.os == os && b.arch == arch && b.type == type) = false := by
        simpa using hb
      simp [List.filter_cons, hbf]

theorem lookup_map_value {α β : Type _} (l : List (String × α)) (f : α → β) (k : String) :
    (l.map (fun e => (e.1, f e.2))).lookup k = (l.lookup k).map f := by
  induction l with
  | nil => rfl
  | cons hd t ih =>
    obtain ⟨k', v⟩ := hd
    by_cases hk : (k == k') = true
    · simp [List.lookup, hk]
    · have hk' : (k == k') = false := by simpa using hk
      simp [List.lookup, hk', ih]

theorem lookup_filterMap_keyed_none {α β : Type _} (g : α → Option β) {l : List (String × α)}
    {k : String} (h : l.lookup k = none) :
    (l.filterMap (fun e => (g e.2).map (fun y => (e.1, y)))).lookup k = none := by
  induction l with
  | nil => rfl
  | cons hd t ih =>
    obtain ⟨k', v⟩ := hd
    by_cases hk : (k == k') = true
    · simp [List.lookup, hk] at h
    · have hk' : (k == k') = false := by simpa using hk
      simp only [List.lookup, hk'] at h
      cases hg : g v with
      | none => simpa [List.filterMap_cons, hg] using ih h
      | some y => simp [List.filterMap_cons, hg, List.lookup, hk', ih h]

theorem lookup_filterMap_keyed_some {α β : Type _} (g : α → Option β) {l : List (String × α)}
    {k : String} {a : α} {b : β} (h : l.lookup k = some a) (hf : g a = some b) :
    (l.filterMap (fun e => (g e.2).map (fun y => (e.1, y)))).lookup k = some b := by
  induction l with
  | nil => simp [List.lookup] at h
  | cons hd t ih =>
    obtain ⟨k', v⟩ := hd
    by_cases hk : (k == k') = true
    · simp only [List.lookup, hk] at h
      obtain rfl : v = a := by injection h
      simp [List.filterMap_cons, hf, List.lookup, hk]
    · have hk' : (k == k') = false := by simpa using hk
      simp only [List.lookup, hk'] at h
      cases hg : g v with
      | none => simpa [List.filterMap_cons, hg] using ih h
      | some y => simp [List.filterMap_cons, hg, List.lookup, hk', ih h]

theorem jsTimeOrZero_isSome (dparse : String → Option Int) (hdp : ∀ s, (dparse s).isSome = true)
    (v : Option String) : (jsTimeOrZero dparse v).isSome = true := by
  cases v with
  | none => rfl
  | some s =>
    unfold jsTimeOrZero
    by_cases hs : s = "" <;> simp [hs, hdp]

theorem manifestSourceLe_total (dparse : String → Option Int) (a b : ManifestSource) :
    (manifestSourceLe dparse a b || manifestSourceLe dparse b a) = true := by
  unfold manifestSourceLe tsLePair
  by_cases h1 : rankDistribution a.distribution < rankDistribution b.distribution
  · simp [h1]
  · by_cases h2 : rankDistribution b.distribution < rankDistribution a.distribution
    · simp [h1, h2]
    · simp only [h1, h2, if_false]
      cases hta : jsTimeOrZero dparse a.releaseDate with
      | none => simp
      | some ta =>
        cases htb : jsTimeOrZero dparse b.releaseDate with
        | none => simp
        | some tb =>
          by_cases hle : tb ≤ ta <;> simp [hle] <;> omega

theorem manifestSourceLe_trans (dparse : String → Option Int)
    (hdp : ∀ s, (dparse s).isSome = true) (a b c : ManifestSource)
    (h1 : manifestSourceLe dparse a b = true) (h2 : manifestSourceLe dparse b c = true) :
    manifestSourceLe dparse a c = true := by
  obtain ⟨ta, hta⟩ := Option.isSome_iff_exists.mp (jsTimeOrZero_isSome dparse hdp a.releaseDate)
  obtain ⟨tb, htb⟩ := Option.isSome_iff_exists.mp (jsTimeOrZero_isSome dparse hdp b.releaseDate)
  obtain ⟨tc, htc⟩ := Option.isSome_iff_exists.mp (jsTimeOrZero_isSome dparse hdp c.releaseDate)
  unfold manifestSourceLe tsLePair at h1 h2 ⊢
  rw [hta, htb] at h1
  rw [htb, htc] at h2
  rw [hta, htc]
  split_ifs at h1 h2 ⊢ <;> simp_all <;> omega

theorem slotLookup_mapped_none (dparse : String → Option Int) (g : GroupedSources)
    (os arch type : String) (h : groupedLookup g os arch type = none) :
    slotLookup (g.map (fun osE =>
      (osE.1, osE.2.map (fun archE =>
        (archE.1, archE.2.filterMap (fun typeE =>
          (finishSlot dparse typeE.2).map (fun slot => (typeE.1, slot)))))))) os arch type = none := by
  unfold slotLookup groupedLookup at *
  rw [lookup_map_value]
  cases hos : g.lookup os with
  | none => rfl
  | some archMap =>
    rw [hos] at h
    simp only [Option.map_some', Option.some_bind] at h ⊢
    rw [lookup_map_value]
    cases harch : archMap.lookup arch with
    | none => rfl
    | some typeMap =>
      rw [harch] at h
      simp only [Option.map_some', Option.some_bind] at h ⊢
      exact lookup_filterMap_keyed_none _ h

theorem slotLookup_mapped_some (dparse : String → Option Int) (g : GroupedSources)
    (os arch type : String) (srcs : List ManifestSource) (slot : ManifestSlot)
    (h : groupedLookup g os arch type = some srcs) (hf : finishSlot dparse srcs = some slot) :
    slotLookup (g.map (fun osE =>
      (osE.1, osE.2.map (fun archE =>
        (archE.1, archE.2.filterMap (fun typeE =>
          (finishSlot dparse typeE.2).map (fun slot => (typeE.1, slot)))))))) os arch type =
      some slot := by
  unfold slotLookup groupedLookup at *
  rw [lookup_map_value]
  cases hos : g.lookup os with
  | none => rw [hos] at h; simp at h
  | some archMap =>
    rw [hos] at h
    simp only [Option.map_some', Option.some_bind] at h ⊢
    rw [lookup_map_value]
    cases harch : archMap.lookup arch with
    | none => rw [harch] at h; simp at h
    | some typeMap =>
      rw [harch] at h
      simp only [Option.map_some', Option.some_bind] at h ⊢
      exact lookup_filterMap_keyed_some _ h hf

/-- C5 counterexample: with two builds (a direct and a store one) in the
same `(os, arch, type)` slot, the emitted `sources` array is the FULL
sorted candidate list — the store primary followed by the direct build —
not just the remainder `[direct]` that the claim prescribes. -/
theorem buildPlatformsArray_remainder_counterexample :
    (slotLookup (buildPlatformsArray demoManifestDParse [demoDirectBuild, demoStoreBuild])
        "ios" "arm64" "installer").map (fun slot => slot.primary) =
      some (mkManifestSource demoStoreBuild) ∧
    (slotLookup (buildPlatformsArray demoManifestDParse [demoDirectBuild, demoStoreBuild])
        "ios" "arm64" "installer").map (fun slot => slot.sources) =
      some (some [mkManifestSource demoStoreBuild, mkManifestSource demoDirectBuild]) ∧
    (slotLookup (buildPlatformsArray demoManifestDParse [demoDirectBuild, demoStoreBuild])
        "ios" "arm64" "installer").map (fun slot => slot.sources) ≠
      some (some [mkManifestSource demoDirectBuild]) := by
  refine ⟨rfl, rfl, ?_⟩
  intro h
  have hval : (slotLookup (buildPlatformsArray demoManifestDParse
      [demoDirectBuild, demoStoreBuild]) "ios" "arm64" "installer").map
        (fun slot => slot.sources) =
      some (some [mkManifestSource demoStoreBuild, mkManifestSource demoDirectBuild]) := rfl
  have h2 := hval.symm.trans h
  have h3 := congrArg (fun o => ((o.getD none).getD []).length) h2
  simp at h3

/-- C5 (amended): per `(os, arch, type)` slot the candidates are the
slot's builds' source objects, sorted stably by distribution rank (store
before direct) then newest release timestamp; the head of the sorted list
is the slot's primary, and when more than one candidate exists the FULL
sorted list (primary included) is retained as `sources`, while a single
candidate yields no sources array; the sort is a permutation of the
candidates ordered by the comparator, and for a {direct, store} pair the
primary is always the store build whatever the timestamps. -/
theorem buildPlatformsArray_slot_spec (dparse : String → Option Int)
    (hdp : ∀ s, (dparse s).isSome = true)
    (builds : List ManifestBuild) (os arch type : String) :
    (slotLookup (buildPlatformsArray dparse builds) os arch type =
      match stableSortBy (manifestSourceLe dparse)
        ((builds.filter (fun b => b.os == os && b.arch == arch && b.type == type)).map
          mkManifestSource) with
      | [] => none
      | primary :: rest =>
        some { primary := primary
               sources := if rest.isEmpty then none else some (primary :: rest) }) ∧
    (stableSortBy (manifestSourceLe dparse)
      ((builds.filter (fun b => b.os == os && b.arch == arch && b.type == type)).map
        mkManifestSource)).Pairwise (fun a b => manifestSourceLe dparse a b = true) ∧
    (stableSortBy (manifestSourceLe dparse)
      ((builds.filter (fun b => b.os == os && b.arch == arch && b.type == type)).map
        mkManifestSource)).Perm
      ((builds.filter (fun b => b.os == os && b.arch == arch && b.type == type)).map
        mkManifestSource) ∧
    (∀ a b : ManifestSource, a.distribution = "direct" → b.distribution = "store" →
      (stableSortBy (manifestSourceLe dparse) [a, b]).head? = some b ∧
      (stableSortBy (manifestSourceLe dparse) [b, a]).head? = some b) := by
  refine ⟨?_, ?_, stableSortBy_perm _ _, ?_⟩
  · have hgl := groupedLookup_foldl builds os arch type []
    have h0 : groupedLookup [] os arch type = none := rfl
    rw [h0] at hgl
    unfold buildPlatformsArray
    by_cases hfe : (builds.filter
        (fun b => b.os == os && b.arch == arch && b.type == type)).isEmpty = true
    · have hnone : groupedLookup (builds.foldl
          (fun g b => pushSource g b.os b.arch b.type (mkManifestSource b)) [])
          os arch type = none := by
        rw [hgl, if_pos hfe]
      have hfil : (builds.filter
          (fun b => b.os == os && b.arch == arch && b.type == type)) = [] :=
        List.isEmpty_iff.mp hfe
      rw [slotLookup_mapped_none dparse _ os arch type hnone, hfil]
      rfl
    · have hsome : groupedLookup (builds.foldl
          (fun g b => pushSource g b.os b.arch b.type (mkManifestSource b)) [])
          os arch type = some ((builds.filter
            (fun b => b.os == os && b.arch == arch && b.type == type)).map
              mkManifestSource) := by
        rw [hgl, if_neg hfe]
      cases hsort : stableSortBy (manifestSourceLe dparse)
          ((builds.filter (fun b => b.os == os && b.arch == arch && b.type == type)).map
            mkManifestSource) with
      | nil =>
        exfalso
        have hperm := stableSortBy_perm (manifestSourceLe dparse)
          ((builds.filter (fun b => b.os == os && b.arch == arch && b.type == type)).map
            mkManifestSource)
        rw [hsort] at hperm
        have hcands := List.Perm.eq_nil hperm.symm
        have hfl : (builds.filter
            (fun b => b.os == os && b.arch == arch && b.type == type)) = [] :=
          List.map_eq_nil_iff.mp hcands
        apply hfe
        rw [hfl]
        rfl
      | cons primary rest =>
        have hfin : finishSlot dparse ((builds.filter
            (fun b => b.os == os && b.arch == arch && b.type == type)).map mkManifestSource) =
            some { primary := primary
                   sources := if rest.isEmpty then none else some (primary :: rest) } := by
          unfold finishSlot
          rw [hsort]
        rw [slotLookup_mapped_some dparse _ os arch type _ _ hsome hfin]
  · exact (pairwise_stableSortBy
      (fun a b c h1 h2 => manifestSourceLe_trans dparse hdp a b c h1 h2)
      (fun a b => manifestSourceLe_total dparse a b) _)
  · intro a b ha hb
    constructor
    · simp [stableSortBy, insertLe, manifestSourceLe, rankDistribution, ha, hb]
    · simp [stableSortBy, insertLe, manifestSourceLe, rankDistribution, ha, hb]

/-- C5 witness: with the total fixture date parser and the direct/store
pair in one slot, the amended characterization instantiates — the slot is
the head of the sorted candidates with the full sorted list retained. -/
theorem buildPlatformsArray_slot_spec_witness :
    (∀ s, (demoManifestDParse s).isSome = true) ∧
    slotLookup (buildPlatformsArray demoManifestDParse [demoDirectBuild, demoStoreBuild])
        "ios" "arm64" "installer" =
      match stableSortBy (manifestSourceLe demoManifestDParse)
        (([demoDirectBuild, demoStoreBuild].filter
          (fun b => b.os == "ios" && b.arch == "arm64" && b.type == "installer")).map
          mkManifestSource) with
      | [] => none
      | primary :: rest =>
        some { primary := primary
               sources := if rest.isEmpty then none else some (primary :: rest) } :=
  ⟨fun s => by unfold demoManifestDParse; split_ifs <;> rfl,
   (buildPlatformsArray_slot_spec demoManifestDParse
     (fun s => by unfold demoManifestDParse; split_ifs <;> rfl)
     [demoDirectBuild, demoStoreBuild] "ios" "arm64" "installer").1⟩
